import Mathlib

/-!
# Rail topology primitives of `rail.h`

A shallow embedding of the track / trackdir encoding of `rail.h` and of the
accessors built on its constant tables.

The C enums `Track`, `TrackBits`, `Trackdir`, `TrackdirBits` and
`DiagDirection` are plain integers in the source (the accessors compare them
with `<`, mask them with `&` and shift by them), so they are embedded as `Nat`
with the enumerators as named constants.  A table read `tab[i]` is embedded as
`tab[i]?`: reading past the end of a table has no result.
-/

namespace Rail

/-! ## Enumerators (`rail.h`, lines 67-127) -/

def TRACK_DIAG1 : Nat := 0
def TRACK_DIAG2 : Nat := 1
def TRACK_UPPER : Nat := 2
def TRACK_LOWER : Nat := 3
def TRACK_LEFT : Nat := 4
def TRACK_RIGHT : Nat := 5
def TRACK_END : Nat := 6
def INVALID_TRACK : Nat := 0xFF

def TRACK_BIT_DIAG1 : Nat := 1
def TRACK_BIT_DIAG2 : Nat := 2
def TRACK_BIT_UPPER : Nat := 4
def TRACK_BIT_LOWER : Nat := 8
def TRACK_BIT_LEFT : Nat := 16
def TRACK_BIT_RIGHT : Nat := 32
def TRACK_BIT_MASK : Nat := 0x3F

def TRACKDIR_DIAG1_NE : Nat := 0
def TRACKDIR_DIAG2_SE : Nat := 1
def TRACKDIR_UPPER_E : Nat := 2
def TRACKDIR_LOWER_E : Nat := 3
def TRACKDIR_LEFT_S : Nat := 4
def TRACKDIR_RIGHT_S : Nat := 5
def TRACKDIR_DIAG1_SW : Nat := 8
def TRACKDIR_DIAG2_NW : Nat := 9
def TRACKDIR_UPPER_W : Nat := 10
def TRACKDIR_LOWER_W : Nat := 11
def TRACKDIR_LEFT_N : Nat := 12
def TRACKDIR_RIGHT_N : Nat := 13
def TRACKDIR_END : Nat := 14
def INVALID_TRACKDIR : Nat := 0xFF

def TRACKDIR_BIT_DIAG1_NE : Nat := 0x1
def TRACKDIR_BIT_DIAG2_SE : Nat := 0x2
def TRACKDIR_BIT_UPPER_E : Nat := 0x4
def TRACKDIR_BIT_LOWER_E : Nat := 0x8
def TRACKDIR_BIT_LEFT_S : Nat := 0x10
def TRACKDIR_BIT_RIGHT_S : Nat := 0x20
def TRACKDIR_BIT_DIAG1_SW : Nat := 0x0100
def TRACKDIR_BIT_DIAG2_NW : Nat := 0x0200
def TRACKDIR_BIT_UPPER_W : Nat := 0x0400
def TRACKDIR_BIT_LOWER_W : Nat := 0x0800
def TRACKDIR_BIT_LEFT_N : Nat := 0x1000
def TRACKDIR_BIT_RIGHT_N : Nat := 0x2000
def TRACKDIR_BIT_MASK : Nat := 0x3F3F
def INVALID_TRACKDIR_BIT : Nat := 0xFFFF

/-- The six tracks: the enumerators of `Track` before `TRACK_END`. -/
def tracks : List Nat :=
  [TRACK_DIAG1, TRACK_DIAG2, TRACK_UPPER, TRACK_LOWER, TRACK_LEFT, TRACK_RIGHT]

/-- The twelve trackdirs: the enumerators of `Trackdir` before `TRACKDIR_END`. -/
def trackdirs : List Nat :=
  [TRACKDIR_DIAG1_NE, TRACKDIR_DIAG2_SE, TRACKDIR_UPPER_E, TRACKDIR_LOWER_E,
   TRACKDIR_LEFT_S, TRACKDIR_RIGHT_S,
   TRACKDIR_DIAG1_SW, TRACKDIR_DIAG2_NW, TRACKDIR_UPPER_W, TRACKDIR_LOWER_W,
   TRACKDIR_LEFT_N, TRACKDIR_RIGHT_N]

/-! ## Validity checks (`rail.h`, lines 143-144) -/

/-- Source: `static inline bool IsValidTrack(Track track) { return track < TRACK_END; }` -/
def IsValidTrack (track : Nat) : Bool := decide (track < TRACK_END)

/-- Source: `static inline bool IsValidTrackdir(Trackdir trackdir) { return trackdir < TRACKDIR_END; }` -/
def IsValidTrackdir (trackdir : Nat) : Bool := decide (trackdir < TRACKDIR_END)

/-! ## Conversions (`rail.h`, lines 319-340) -/

/-- Source: `TrackdirToTrackdirBits(trackdir) { return 1 << trackdir; }`; the C shift is
defined for shift counts below the width of `int`, where it agrees with this. -/
def TrackdirToTrackdirBits (trackdir : Nat) : Nat := 1 <<< trackdir

/-- Source: `TrackToTrackBits(track) { return 1 << track; }` -/
def TrackToTrackBits (track : Nat) : Nat := 1 <<< track

/-- Source: `TrackdirToTrack(trackdir) { return trackdir & 0x7; }` -/
def TrackdirToTrack (trackdir : Nat) : Nat := trackdir &&& 0x7

/-- Source: `TrackToTrackdir(track) { return track; }` -/
def TrackToTrackdir (track : Nat) : Nat := track

/-- Source: `IsDiagonalTrack(track) { return track == TRACK_DIAG1 || track == TRACK_DIAG2; }` -/
def IsDiagonalTrack (track : Nat) : Bool := track == TRACK_DIAG1 || track == TRACK_DIAG2

/-- Source: `IsDiagonalTrackdir(trackdir) { return IsDiagonalTrack(TrackdirToTrack(trackdir)); }` -/
def IsDiagonalTrackdir (trackdir : Nat) : Bool := IsDiagonalTrack (TrackdirToTrack trackdir)

/-! ## Table accessors (`rail.h`, lines 247-314)

`rail.h` declares the constant tables and defines the accessors that read them;
the initialisers of the tables are in `rail.c`.  The accessors are therefore
embedded over an arbitrary record of tables, and the tables themselves follow
further down. -/

/-- The constant tables declared in `rail.h` that the accessors below read. -/
structure RailTables where
  /-- Source: `const Trackdir _next_trackdir[TRACKDIR_END];` -/
  _next_trackdir : List Nat
  /-- Source: `const TrackBits _track_crosses_tracks[TRACK_END];` -/
  _track_crosses_tracks : List Nat
  /-- Source: `const DiagDirection _trackdir_to_exitdir[TRACKDIR_END];` -/
  _trackdir_to_exitdir : List Nat
  /-- Source: `const TrackdirBits _exitdir_reaches_trackdirs[DIAGDIR_END];` -/
  _exitdir_reaches_trackdirs : List Nat
  /-- Source: `const DiagDirection _reverse_diagdir[DIAGDIR_END];` -/
  _reverse_diagdir : List Nat
  /-- Source: `const Trackdir _reverse_trackdir[TRACKDIR_END];` -/
  _reverse_trackdir : List Nat

/-- Source: `NextTrackdir(trackdir) { return _next_trackdir[trackdir]; }` -/
def NextTrackdir (T : RailTables) (trackdir : Nat) : Option Nat :=
  T._next_trackdir[trackdir]?

/-- Source: `TrackCrossesTracks(track) { return _track_crosses_tracks[track]; }` -/
def TrackCrossesTracks (T : RailTables) (track : Nat) : Option Nat :=
  T._track_crosses_tracks[track]?

/-- Source: `TrackdirToExitdir(trackdir) { return _trackdir_to_exitdir[trackdir]; }` -/
def TrackdirToExitdir (T : RailTables) (trackdir : Nat) : Option Nat :=
  T._trackdir_to_exitdir[trackdir]?

/-- Source: `TrackdirReachesTrackdirs(trackdir)
{ return _exitdir_reaches_trackdirs[TrackdirToExitdir(trackdir)]; }` -/
def TrackdirReachesTrackdirs (T : RailTables) (trackdir : Nat) : Option Nat :=
  match TrackdirToExitdir T trackdir with
  | some exitdir => T._exitdir_reaches_trackdirs[exitdir]?
  | none => none

/-- Source: `ReverseDiagdir(diagdir) { return _reverse_diagdir[diagdir]; }` -/
def ReverseDiagdir (T : RailTables) (diagdir : Nat) : Option Nat :=
  T._reverse_diagdir[diagdir]?

/-- Source: `ReverseTrackdir(trackdir) { return _reverse_trackdir[trackdir]; }` -/
def ReverseTrackdir (T : RailTables) (trackdir : Nat) : Option Nat :=
  T._reverse_trackdir[trackdir]?

/-! ## The tables

The initialisers of the tables (`rail.c`) and the `DiagDirection` enum
(`openttd.h`) are written out from the description the specification gives of
each of them, read over the enumerators of `rail.h`: every `Trackdir`
enumerator names its track and its heading. -/

/-- Modelled from the spec: the `DiagDirection` enumerator for north-east
(`openttd.h` is missing); the "four-way compass directions", numbered clockwise
from north-east. -/
def DIAGDIR_NE : Nat := 0
/-- Modelled from the spec: the `DiagDirection` enumerator for south-east. -/
def DIAGDIR_SE : Nat := 1
/-- Modelled from the spec: the `DiagDirection` enumerator for south-west. -/
def DIAGDIR_SW : Nat := 2
/-- Modelled from the spec: the `DiagDirection` enumerator for north-west. -/
def DIAGDIR_NW : Nat := 3
/-- Modelled from the spec: the number of `DiagDirection` values, four. -/
def DIAGDIR_END : Nat := 4

/-- The four diagonal directions. -/
def diagdirs : List Nat := [DIAGDIR_NE, DIAGDIR_SE, DIAGDIR_SW, DIAGDIR_NW]

/-- Modelled from the spec: the initialiser of `_next_trackdir` (`rail.c` is
missing).  "Straight-ahead continuation of a trackdir (identity for diagonal
tracks, alternation for straight tracks)": a diagonal trackdir continues as
itself, a straight one continues on the parallel track of its pair
(upper/lower, left/right) with the same heading.  Slots 6 and 7 belong to no
trackdir and hold the invalid sentinel. -/
def next_trackdir_table : List Nat :=
  [TRACKDIR_DIAG1_NE, TRACKDIR_DIAG2_SE, TRACKDIR_LOWER_E, TRACKDIR_UPPER_E,
   TRACKDIR_RIGHT_S, TRACKDIR_LEFT_S, INVALID_TRACKDIR, INVALID_TRACKDIR,
   TRACKDIR_DIAG1_SW, TRACKDIR_DIAG2_NW, TRACKDIR_LOWER_W, TRACKDIR_UPPER_W,
   TRACKDIR_RIGHT_N, TRACKDIR_LEFT_N]

/-- Modelled from the spec: the initialiser of `_track_crosses_tracks` (`rail.c`
is missing).  "The set of tracks that intersect a given one at 90 degrees", over
"two diagonal, two vertical, two horizontal" tracks: each diagonal crosses the
other diagonal, and each track of one straight pair crosses both tracks of the
other straight pair. -/
def track_crosses_tracks_table : List Nat :=
  [TRACK_BIT_DIAG2,
   TRACK_BIT_DIAG1,
   TRACK_BIT_LEFT ||| TRACK_BIT_RIGHT,
   TRACK_BIT_LEFT ||| TRACK_BIT_RIGHT,
   TRACK_BIT_UPPER ||| TRACK_BIT_LOWER,
   TRACK_BIT_UPPER ||| TRACK_BIT_LOWER]

/-- Modelled from the spec: the initialiser of `_trackdir_to_exitdir` (`rail.c`
is missing).  "The four-way direction a cell boundary is crossed when leaving
along a trackdir": a diagonal trackdir leaves through the edge it is named
after; the upper track joins the NW and NE edges, the lower SW and SE, the left
NW and SW, the right NE and SE, and the heading in the enumerator picks the edge.
Slots 6 and 7 belong to no trackdir and hold `0xFF`, which is no direction. -/
def trackdir_to_exitdir_table : List Nat :=
  [DIAGDIR_NE, DIAGDIR_SE, DIAGDIR_NE, DIAGDIR_SE, DIAGDIR_SW, DIAGDIR_SE,
   0xFF, 0xFF,
   DIAGDIR_SW, DIAGDIR_NW, DIAGDIR_NW, DIAGDIR_SW, DIAGDIR_NW, DIAGDIR_NE]

/-- Modelled from the spec: the initialiser of `_reverse_diagdir` (`rail.c` is
missing).  "The opposite-direction ... diagdirection". -/
def reverse_diagdir_table : List Nat :=
  [DIAGDIR_SW, DIAGDIR_NW, DIAGDIR_NE, DIAGDIR_SE]

/-- Modelled from the spec: the initialiser of `_reverse_trackdir` (`rail.c` is
missing).  "The opposite-direction trackdir", where "values 0-5 represent one
direction of travel on each of the six tracks, values 8-13 represent the
opposite direction".  Slots 6 and 7 belong to no trackdir and hold the invalid
sentinel. -/
def reverse_trackdir_table : List Nat :=
  [TRACKDIR_DIAG1_SW, TRACKDIR_DIAG2_NW, TRACKDIR_UPPER_W, TRACKDIR_LOWER_W,
   TRACKDIR_LEFT_N, TRACKDIR_RIGHT_N, INVALID_TRACKDIR, INVALID_TRACKDIR,
   TRACKDIR_DIAG1_NE, TRACKDIR_DIAG2_SE, TRACKDIR_UPPER_E, TRACKDIR_LOWER_E,
   TRACKDIR_LEFT_S, TRACKDIR_RIGHT_S]

/-- Modelled from the spec: the initialiser of `_exitdir_reaches_trackdirs`
(`rail.c` is missing).  "The trackdirs reachable on entering the next cell from
a given exit direction": leaving through an edge enters the next cell through
its opposite edge, and the trackdirs reachable there are the three that start
at that edge (one diagonal, one of each straight pair). -/
def exitdir_reaches_trackdirs_table : List Nat :=
  [TRACKDIR_BIT_DIAG1_NE ||| TRACKDIR_BIT_LOWER_E ||| TRACKDIR_BIT_LEFT_N,
   TRACKDIR_BIT_DIAG2_SE ||| TRACKDIR_BIT_LEFT_S ||| TRACKDIR_BIT_UPPER_E,
   TRACKDIR_BIT_DIAG1_SW ||| TRACKDIR_BIT_UPPER_W ||| TRACKDIR_BIT_RIGHT_S,
   TRACKDIR_BIT_DIAG2_NW ||| TRACKDIR_BIT_RIGHT_N ||| TRACKDIR_BIT_LOWER_W]

/-- Modelled from the spec: the tables of `rail.c`, which is missing, gathered
in one record. -/
def railTables : RailTables where
  _next_trackdir := next_trackdir_table
  _track_crosses_tracks := track_crosses_tracks_table
  _trackdir_to_exitdir := trackdir_to_exitdir_table
  _exitdir_reaches_trackdirs := exitdir_reaches_trackdirs_table
  _reverse_diagdir := reverse_diagdir_table
  _reverse_trackdir := reverse_trackdir_table

/-- A record of tables has the sizes `rail.h` declares, and its exit directions
of the twelve trackdirs are directions. -/
def RailTables.WellSized (T : RailTables) : Prop :=
  T._next_trackdir.length = TRACKDIR_END ∧
  T._track_crosses_tracks.length = TRACK_END ∧
  T._trackdir_to_exitdir.length = TRACKDIR_END ∧
  T._exitdir_reaches_trackdirs.length = DIAGDIR_END ∧
  T._reverse_diagdir.length = DIAGDIR_END ∧
  T._reverse_trackdir.length = TRACKDIR_END ∧
  ∀ t ∈ trackdirs, ∀ e, T._trackdir_to_exitdir[t]? = some e → e < DIAGDIR_END

/-! ## Rail tiles (`rail.h`, lines 14-63, 133-136, 152-237, 346-366)

The accessors below read the map arrays `_map2`, `_map3_lo`, `_map3_hi` and
`_map5` and the signal tables.  The arrays are declared in `map.h` and the
tile-type test in `tile.h`; the accessors are embedded over an arbitrary content
of them.  An `assert` that fails leaves the accessor without a result. -/

def RAIL_TYPE_NORMAL : Nat := 0x0
def RAIL_TYPE_SIGNALS : Nat := 0x40
def RAIL_TYPE_UNUSED : Nat := 0x80
def RAIL_TYPE_DEPOT_WAYPOINT : Nat := 0xC0
def RAIL_TILE_TYPE_MASK : Nat := 0xC0
def RAIL_TYPE_SPECIAL : Nat := 0x80

def RAILTYPE_RAIL : Nat := 0
def RAILTYPE_MONO : Nat := 1
def RAILTYPE_MAGLEV : Nat := 2
def RAILTYPE_END : Nat := 3
def RAILTYPE_MASK : Nat := 0x3
def INVALID_RAILTYPE : Nat := 0xFF

def SIGNALSTATE_RED : Nat := 0
def SIGNALSTATE_GREEN : Nat := 1

/-- The map arrays that `rail.h` reads, indexed by tile, and the tile-type test
`IsTileType(tile, MP_RAILWAY)` its assertions call. -/
structure MapArrays where
  /-- Source: `IsTileType(tile, MP_RAILWAY)`, the test asserted by `GetRailTileType`. -/
  IsRailwayTile : Nat → Bool
  /-- Source: `_map2[tile]` -/
  _map2 : Nat → Nat
  /-- Source: `_map3_lo[tile]` -/
  _map3_lo : Nat → Nat
  /-- Source: `_map3_hi[tile]` -/
  _map3_hi : Nat → Nat
  /-- Source: `_map5[tile]` -/
  _map5 : Nat → Nat

/-- The signal tables declared in `rail.h`, lines 156-170. -/
structure SignalTables where
  /-- Source: `const byte _signal_along_trackdir[TRACKDIR_END];` -/
  _signal_along_trackdir : List Nat
  /-- Source: `const byte _signal_against_trackdir[TRACKDIR_END];` -/
  _signal_against_trackdir : List Nat
  /-- Source: `const byte _signal_on_track[TRACK_END];` -/
  _signal_on_track : List Nat

/-- Source: `SignalAlongTrackdir(trackdir) {return _signal_along_trackdir[trackdir];}` -/
def SignalAlongTrackdir (S : SignalTables) (trackdir : Nat) : Option Nat :=
  S._signal_along_trackdir[trackdir]?

/-- Source: `SignalAgainstTrackdir(trackdir) { return _signal_against_trackdir[trackdir]; }` -/
def SignalAgainstTrackdir (S : SignalTables) (trackdir : Nat) : Option Nat :=
  S._signal_against_trackdir[trackdir]?

/-- Source: `SignalOnTrack(track) { return _signal_on_track[track]; }` -/
def SignalOnTrack (S : SignalTables) (track : Nat) : Option Nat :=
  S._signal_on_track[track]?

/-- Source: `GetRailTileType(tile)`:
`assert(IsTileType(tile, MP_RAILWAY)); return (_map5[tile] & RAIL_TILE_TYPE_MASK);` -/
def GetRailTileType (M : MapArrays) (tile : Nat) : Option Nat :=
  if M.IsRailwayTile tile then some (M._map5 tile &&& RAIL_TILE_TYPE_MASK) else none

/-- Source: `GetRailType(tile) { return _map3_lo[tile] & RAILTYPE_MASK; }` -/
def GetRailType (M : MapArrays) (tile : Nat) : Nat :=
  M._map3_lo tile &&& RAILTYPE_MASK

/-- Source: `HasSignals(tile) { return GetRailTileType(tile) == RAIL_TYPE_SIGNALS; }` -/
def HasSignals (M : MapArrays) (tile : Nat) : Option Bool :=
  match GetRailTileType M tile with
  | some rtt => some (rtt == RAIL_TYPE_SIGNALS)
  | none => none

/-- Source: `IsPlainRailTile(tile)`:
`RailTileType rtt = GetRailTileType(tile);
return rtt == RAIL_TYPE_NORMAL || rtt == RAIL_TYPE_SIGNALS;` -/
def IsPlainRailTile (M : MapArrays) (tile : Nat) : Option Bool :=
  match GetRailTileType M tile with
  | some rtt => some (rtt == RAIL_TYPE_NORMAL || rtt == RAIL_TYPE_SIGNALS)
  | none => none

/-- Source: `GetTrackBits(tile)`:
`assert(GetRailTileType(tile) == RAIL_TYPE_NORMAL || GetRailTileType(tile) == RAIL_TYPE_SIGNALS);
return _map5[tile] & TRACK_BIT_MASK;` -/
def GetTrackBits (M : MapArrays) (tile : Nat) : Option Nat :=
  match GetRailTileType M tile, GetRailTileType M tile with
  | some a, some b =>
      if a == RAIL_TYPE_NORMAL || b == RAIL_TYPE_SIGNALS then
        some (M._map5 tile &&& TRACK_BIT_MASK)
      else none
  | _, _ => none

/-- Modelled from the spec: the `HASBIT(x, y)` macro (`macros.h` is missing),
whether bit `y` of `x` is set: `((x) & (1 << (y))) != 0`. -/
def HASBIT (x y : Nat) : Bool := (x &&& (1 <<< y)) != 0

/-- Source: `HasTrack(tile, track)`:
`assert(IsValidTrack(track)); return HASBIT(GetTrackBits(tile), track);` -/
def HasTrack (M : MapArrays) (tile track : Nat) : Option Bool :=
  if IsValidTrack track then
    match GetTrackBits M tile with
    | some bits => some (HASBIT bits track)
    | none => none
  else none

/-- Source: `HasSignalOnTrack(tile, track)`:
`assert(IsValidTrack(track));
return (GetRailTileType(tile) == RAIL_TYPE_SIGNALS && (_map3_lo[tile] & SignalOnTrack(track)));`
The right operand of `&&` is evaluated only when the left one holds. -/
def HasSignalOnTrack (M : MapArrays) (S : SignalTables) (tile track : Nat) : Option Bool :=
  if IsValidTrack track then
    match GetRailTileType M tile with
    | some rtt =>
        if rtt == RAIL_TYPE_SIGNALS then
          match SignalOnTrack S track with
          | some bits => some ((M._map3_lo tile &&& bits) != 0)
          | none => none
        else some false
    | none => none
  else none

/-- Source: `GetSignalState(tile, trackdir)`:
`assert(IsValidTrackdir(trackdir));
assert(HasSignalOnTrack(tile, TrackdirToTrack(trackdir)));
return ((_map2[tile] & SignalAlongTrackdir(trackdir))?SIGNALSTATE_GREEN:SIGNALSTATE_RED);` -/
def GetSignalState (M : MapArrays) (S : SignalTables) (tile trackdir : Nat) : Option Nat :=
  if IsValidTrackdir trackdir then
    match HasSignalOnTrack M S tile (TrackdirToTrack trackdir) with
    | some true =>
        match SignalAlongTrackdir S trackdir with
        | some bit =>
            some (if (M._map2 tile &&& bit) != 0 then SIGNALSTATE_GREEN else SIGNALSTATE_RED)
        | none => none
    | _ => none
  else none

/-- Sample: a map whose every tile is a railway tile with signals carrying the
two diagonal tracks (`_map5 = 0x43`), with `_map3_lo = 0xC0` and `_map2 = 0x80`. -/
def sampleMap : MapArrays :=
  { IsRailwayTile := fun _ => true,
    _map2 := fun _ => 0x80,
    _map3_lo := fun _ => 0xC0,
    _map3_hi := fun _ => 0,
    _map5 := fun _ => 0x43 }

/-- Sample: a content of the signal tables, used to exercise the accessors. -/
def sampleSignals : SignalTables :=
  { _signal_along_trackdir :=
      [0x80, 0x80, 0x80, 0x20, 0x40, 0x10, 0, 0, 0x40, 0x40, 0x40, 0x10, 0x80, 0x20],
    _signal_against_trackdir :=
      [0x40, 0x40, 0x40, 0x10, 0x80, 0x20, 0, 0, 0x80, 0x80, 0x80, 0x20, 0x40, 0x10],
    _signal_on_track := [0xC0, 0xC0, 0xC0, 0x30, 0xC0, 0x30] }

/-- The bitwise OR of a list of bit sets. -/
def orAll (l : List Nat) : Nat := l.foldl (fun acc b => acc ||| b) 0

end Rail

/-!
# The AyStar search engine (`src/pathfinder/aystar.h`)

`aystar.h` declares the search structure, its status codes and its callback
types.  The bodies of `AddStartNode`, `Main`, `Loop`, `CheckTile` and
`OpenListAdd` and the node list are not part of the header; they are written out
below from the specification of the open/closed list and of the search engine.
Callbacks are embedded as pure functions, and the fields the header asks to be
left alone during a search (`AyStar`) are kept apart from what a search changes
(`SearchState`).
-/

namespace Pathfinder

/-- Source: `static const int AYSTAR_DEF_MAX_SEARCH_NODES = 10000;` -/
def AYSTAR_DEF_MAX_SEARCH_NODES : Int := 10000

/-- Source: `enum AystarStatus`, the return status of the `AyStar` methods. -/
inductive AystarStatus where
  | AYSTAR_FOUND_END_NODE
  | AYSTAR_EMPTY_OPENLIST
  | AYSTAR_STILL_BUSY
  | AYSTAR_NO_PATH
  | AYSTAR_LIMIT_REACHED
  | AYSTAR_DONE
  deriving DecidableEq, Repr

open AystarStatus

/-- Source: `static const int AYSTAR_INVALID_NODE = -1;` -/
def AYSTAR_INVALID_NODE : Int := -1

/-- Modelled from the spec: the node key `AyStarNode` (`CYapfNodeKeyTrackDir`,
whose header is missing), the "directed-position key: (cell, Trackdir)". -/
structure AyStarNode where
  tile : Nat
  td : Nat
  deriving DecidableEq, Repr

/-- Modelled from the spec: `PathNode` (`CYapfNodeT`, whose header is missing):
"directed-position key; owning parent: optional reference to the PathNode it was
expanded from; accumulated cost g; heuristic estimate h; total f = g + h".  The
parent reference is the key of the parent record. -/
structure PathNode where
  key : AyStarNode
  parent : Option AyStarNode
  g : Nat
  h : Nat
  deriving DecidableEq, Repr

/-- Modelled from the spec: the total `f = g + h` of a `PathNode`. -/
def PathNode.f (n : PathNode) : Nat := n.g + n.h

/-- Source: `struct AyStar`, the fields to be "filled before initing the AyStar,
but not changed afterwards".  `CalculateG` returns `AYSTAR_INVALID_NODE` or "any
value >= 0", embedded as `Option Nat`; `EndNodeCheck` returns
`AYSTAR_FOUND_END_NODE` or `AYSTAR_DONE`; `max_search_nodes` carries the default
member initialiser of the header.  The `FoundEndNode` callback and the user
pointers, which the engine only hands through, are left out: the node handed to
`FoundEndNode` is recorded in `SearchState.found`. -/
structure AyStar where
  CalculateG : AyStarNode → PathNode → Option Nat
  CalculateH : AyStarNode → Option PathNode → Nat
  GetNeighbours : PathNode → List AyStarNode
  EndNodeCheck : PathNode → AystarStatus
  loops_per_tick : Nat
  max_path_cost : Int
  max_search_nodes : Int := AYSTAR_DEF_MAX_SEARCH_NODES

/-- Modelled from the spec: the open/closed list (`NodeList`, whose header is
missing): "two logical views over the same node population", open and closed.
The open view is kept in insertion order. -/
structure NodeList where
  open_nodes : List PathNode
  closed_nodes : List PathNode
  deriving DecidableEq, Repr

/-- Modelled from the spec: the "search instance state": the open and closed
sets, the counter of expanded nodes, and the node handed to `FoundEndNode`. -/
structure SearchState where
  nodes : NodeList
  expanded : Nat
  found : Option PathNode
  deriving DecidableEq, Repr

/-- Modelled from the spec: the lookup index of the node list, "keyed by (cell,
Trackdir) for O(1) existence/lookup", over one view. -/
def findKey (l : List PathNode) (key : AyStarNode) : Option PathNode :=
  l.find? (fun r => r.key == key)

/-- Modelled from the spec: one view without the record of a key. -/
def removeKey (l : List PathNode) (key : AyStarNode) : List PathNode :=
  l.filter (fun r => r.key != key)

/-- Modelled from the spec: `FindOpenNode`, the open record of a key. -/
def NodeList.FindOpenNode (nl : NodeList) (key : AyStarNode) : Option PathNode :=
  findKey nl.open_nodes key

/-- Modelled from the spec: `FindClosedNode`, the closed record of a key. -/
def NodeList.FindClosedNode (nl : NodeList) (key : AyStarNode) : Option PathNode :=
  findKey nl.closed_nodes key

/-- Modelled from the spec: "look up whether a record with a given key already
exists (in either open or closed state) and retrieve it". -/
def NodeList.Find (nl : NodeList) (key : AyStarNode) : Option PathNode :=
  match nl.FindOpenNode key with
  | some r => some r
  | none => nl.FindClosedNode key

/-- Modelled from the spec: `Insert(key, g, h, parent)`: "if no existing record
for key, create one in open.  If a record exists and is still open with a higher
g, update it in place (decrease-key) and re-heapify.  If a record exists and is
closed with a higher g, reopen it with the new cheaper g and parent.  If an
existing record (open or closed) has g <= new g, the call is a no-op". -/
def NodeList.Insert (nl : NodeList) (key : AyStarNode) (g h : Nat)
    (parent : Option AyStarNode) : NodeList :=
  match nl.Find key with
  | none =>
      { open_nodes := nl.open_nodes ++ [⟨key, parent, g, h⟩],
        closed_nodes := nl.closed_nodes }
  | some r =>
      if r.g ≤ g then nl
      else
        { open_nodes := removeKey nl.open_nodes key ++ [⟨key, parent, g, h⟩],
          closed_nodes := removeKey nl.closed_nodes key }

/-- Modelled from the spec: the record of minimum `f` among `b` and the records
of `l`, the earliest one on a tie ("ascending f, ... must be deterministic, e.g.
insertion order"). -/
def bestOf : PathNode → List PathNode → PathNode
  | b, [] => b
  | b, r :: rs => if r.f < b.f then bestOf r rs else bestOf b rs

/-- Modelled from the spec: `PopBest()`: "remove and return the open record with
minimum f ... Fails (empty result) when open is empty". -/
def NodeList.PopBest (nl : NodeList) : Option (PathNode × NodeList) :=
  match nl.open_nodes with
  | [] => none
  | r :: rs =>
      some (bestOf r rs,
        { open_nodes := removeKey nl.open_nodes (bestOf r rs).key,
          closed_nodes := nl.closed_nodes })

/-- Modelled from the spec: `Close(record)`: "move a popped-and-accepted record
from open to closed"; a closed record of the same key is replaced. -/
def NodeList.Close (nl : NodeList) (r : PathNode) : NodeList :=
  { open_nodes := nl.open_nodes,
    closed_nodes := removeKey nl.closed_nodes r.key ++ [r] }

/-- Modelled from the spec: the path-cost ceiling test, "if accumulated g exceeds
the configured path-cost ceiling, discard the candidate", with "path-cost
ceiling (0 = unbounded)". -/
def ExceedsCost (a : AyStar) (g : Nat) : Bool :=
  decide (a.max_path_cost ≠ 0 ∧ a.max_path_cost < (g : Int))

/-- Modelled from the spec: the node ceiling test, "if it exceeds the configured
node ceiling"; the header adds "0 = infinite". -/
def ExceedsNodes (a : AyStar) (expanded : Nat) : Bool :=
  decide (a.max_search_nodes ≠ 0 ∧ a.max_search_nodes < (expanded : Int))

/-- Modelled from the spec: `AyStar::CheckTile` (its body is missing), step 4 of
the iteration for one candidate: "compute g via CalculateG (an invalid result
... discards the candidate silently); compute h via CalculateH; if accumulated g
exceeds the configured path-cost ceiling, discard the candidate; otherwise call
Insert ... with the candidate's key, new g, h, and the current node as parent".
The accumulated g is the parent's g plus the value of `CalculateG`. -/
def CheckTile (a : AyStar) (parent : PathNode) (nl : NodeList) (current : AyStarNode) :
    NodeList :=
  match a.CalculateG current parent with
  | none => nl
  | some c =>
      if ExceedsCost a (parent.g + c) then nl
      else nl.Insert current (parent.g + c) (a.CalculateH current (some parent))
        (some parent.key)

/-- Modelled from the spec: `AyStar::AddStartNode` (its body is missing): "start
nodes are inserted into the open list with g as given and h computed
immediately"; a start node has no parent.  The path-cost ceiling holds for a
start node as for any other node: the spec lets a search report "never a path
exceeding the ceiling", and the header says of `max_path_cost` "if the g-value
goes over this number, it stops searching", so a start node whose g exceeds the
ceiling is not inserted. -/
def AddStartNode (a : AyStar) (s : SearchState) (start_node : AyStarNode) (g : Nat) :
    SearchState :=
  if ExceedsCost a g then s
  else { s with nodes := s.nodes.Insert start_node g (a.CalculateH start_node none) none }

/-- Modelled from the spec: the state of a search before any start node is added. -/
def SearchState.init : SearchState :=
  { nodes := { open_nodes := [], closed_nodes := [] }, expanded := 0, found := none }

/-- Modelled from the spec: step 2 of the iteration, "if already closed with an
equal-or-better g". -/
def IsStale (nl : NodeList) (current : PathNode) : Bool :=
  match nl.FindClosedNode current.key with
  | some c => decide (c.g ≤ current.g)
  | none => false

/-- Modelled from the spec: `AyStar::Loop` (its body is missing), one iteration:
"1. If open list is empty -> terminal EXHAUSTED.  2. Pop best node by f.  If
already closed with an equal-or-better g, discard and continue.  3. Evaluate
IsGoal.  If goal -> run OnGoalFound, terminal FOUND.  4. Otherwise close the
node, request its neighbor candidates via GetNeighbours, and for each candidate
[CheckTile].  5. Increment the expanded-node counter; if it exceeds the
configured node ceiling -> terminal NODE_LIMIT."  The statuses are those of
`AystarStatus`: `AYSTAR_EMPTY_OPENLIST`, `AYSTAR_FOUND_END_NODE`,
`AYSTAR_LIMIT_REACHED`, and `AYSTAR_STILL_BUSY` while the search goes on. -/
def Loop (a : AyStar) (s : SearchState) : AystarStatus × SearchState :=
  match s.nodes.PopBest with
  | none => (AYSTAR_EMPTY_OPENLIST, s)
  | some (current, rest) =>
      if IsStale rest current then
        (AYSTAR_STILL_BUSY, { s with nodes := rest })
      else if a.EndNodeCheck current = AYSTAR_FOUND_END_NODE then
        (AYSTAR_FOUND_END_NODE, { s with nodes := rest, found := some current })
      else
        (if ExceedsNodes a (s.expanded + 1) then AYSTAR_LIMIT_REACHED else AYSTAR_STILL_BUSY,
          { nodes := (a.GetNeighbours current).foldl (CheckTile a current) (rest.Close current),
            expanded := s.expanded + 1,
            found := s.found })

/-- Modelled from the spec: one call of `AyStar::Main` with `loops_per_tick = n`,
`n > 0`: "the engine runs a bounded number of these iterations per invocation
... and yields control back to the caller", stopping early at a status other
than `AYSTAR_STILL_BUSY`. -/
def RunLoops (a : AyStar) : Nat → SearchState → AystarStatus × SearchState
  | 0, s => (AYSTAR_STILL_BUSY, s)
  | n + 1, s =>
      if (Loop a s).1 = AYSTAR_STILL_BUSY then
        match n with
        | 0 => Loop a s
        | _ + 1 => RunLoops a n (Loop a s).2
      else Loop a s

/-- Modelled from the spec: `AyStar::Main` with `loops_per_tick = 0`, "run to
completion synchronously".  The search need not end, so the run is cut after
`fuel` iterations, where it has no result. -/
def RunToEnd (a : AyStar) : Nat → SearchState → Option (AystarStatus × SearchState)
  | 0, _ => none
  | fuel + 1, s =>
      if (Loop a s).1 = AYSTAR_STILL_BUSY then RunToEnd a fuel (Loop a s).2
      else some (Loop a s)

/-- Modelled from the spec: `AyStar::Main` (its body is missing): a batch of
`loops_per_tick` iterations, or the whole search when `loops_per_tick = 0`. -/
def Main (a : AyStar) (fuel : Nat) (s : SearchState) :
    Option (AystarStatus × SearchState) :=
  if a.loops_per_tick = 0 then RunToEnd a fuel s
  else some (RunLoops a a.loops_per_tick s)

/-- Modelled from the spec: the caller of a time-sliced search, "calling Main
repeatedly until it returns a status other than AYSTAR_STILL_BUSY", cut after
`calls` calls. -/
def MainUntilDone (a : AyStar) (fuel : Nat) : Nat → SearchState →
    Option (AystarStatus × SearchState)
  | 0, _ => none
  | calls + 1, s =>
      match Main a fuel s with
      | none => none
      | some r =>
          if r.1 = AYSTAR_STILL_BUSY then MainUntilDone a fuel calls r.2 else some r

/-- The result of the `j`-th consecutive `Loop` iteration from `s`, when the
`j - 1` iterations before it all returned `AYSTAR_STILL_BUSY`. -/
def NthLoop (a : AyStar) : Nat → SearchState → Option (AystarStatus × SearchState)
  | 0, _ => none
  | j + 1, s =>
      match j with
      | 0 => some (Loop a s)
      | _ + 1 =>
          if (Loop a s).1 = AYSTAR_STILL_BUSY then NthLoop a j (Loop a s).2 else none

/-- Modelled from the spec: `OnGoalFound` "walks parent references from the goal
node back to a start node (parent = none), producing the directed-position
sequence in reverse"; parents are looked up among the closed records. -/
def WalkParents (nl : NodeList) : Nat → PathNode → List AyStarNode
  | 0, n => [n.key]
  | fuel + 1, n =>
      match n.parent with
      | none => [n.key]
      | some p =>
          match nl.FindClosedNode p with
          | some r => n.key :: WalkParents nl fuel r
          | none => [n.key]

/-- Modelled from the spec: the path reported by a search that found its goal:
the goal node with its g, and its chain of parents. -/
def FoundPath (s : SearchState) : Option (PathNode × List AyStarNode) :=
  match s.found with
  | some n => some (n, WalkParents s.nodes s.nodes.closed_nodes.length n)
  | none => none

/-- A test graph: the neighbours of a node, the cost of an edge (none when the
edge cannot be taken), the heuristic, and the goal check. -/
structure Graph where
  nbrs : AyStarNode → List AyStarNode
  cost : AyStarNode → AyStarNode → Option Nat
  heur : AyStarNode → Nat
  goal : AyStarNode → Bool

/-- The search over a test graph: callbacks that read only the keys. -/
def Graph.search (G : Graph) (loops_per_tick : Nat) (max_path_cost max_search_nodes : Int) :
    AyStar :=
  { CalculateG := fun current parent => G.cost parent.key current,
    CalculateH := fun current _ => G.heur current,
    GetNeighbours := fun current => G.nbrs current.key,
    EndNodeCheck := fun current =>
      if G.goal current.key then AYSTAR_FOUND_END_NODE else AYSTAR_DONE,
    loops_per_tick := loops_per_tick,
    max_path_cost := max_path_cost,
    max_search_nodes := max_search_nodes }

/-- The paths of a test graph: `G.Reach u v c` when some path from `u` to `v`
along takeable edges has total edge cost `c`. -/
inductive Graph.Reach (G : Graph) : AyStarNode → AyStarNode → Nat → Prop where
  | refl (u : AyStarNode) : G.Reach u u 0
  | step {u w v : AyStarNode} {d c : Nat} :
      w ∈ G.nbrs u → G.cost u w = some d → G.Reach w v c → G.Reach u v (d + c)

/-- The heuristic of a test graph is admissible: it never overestimates the cost
of a path to a node that passes the goal check. -/
def Graph.Admissible (G : Graph) : Prop :=
  ∀ u v c, G.Reach u v c → G.goal v = true → G.heur u ≤ c

/-- The state of a search seeded with a list of start nodes and their g. -/
def StartAll (a : AyStar) (starts : List (AyStarNode × Nat)) : SearchState :=
  starts.foldl (fun s p => AddStartNode a s p.1 p.2) SearchState.init

/-- A record is in the node list, in the open or in the closed view. -/
def NodeList.Mem (nl : NodeList) (r : PathNode) : Prop :=
  r ∈ nl.open_nodes ∨ r ∈ nl.closed_nodes

/-- The node list holds one record per key. -/
def NodeList.Unique (nl : NodeList) : Prop :=
  ∀ r r', nl.Mem r → nl.Mem r' → r.key = r'.key → r = r'

/-- The node list holds a record of key `w` with g at most `x`. -/
def NodeList.Covers (nl : NodeList) (w : AyStarNode) (x : Nat) : Prop :=
  ∃ y, nl.Mem y ∧ y.key = w ∧ y.g ≤ x

/-- The invariant of a search over a test graph `G` seeded with `starts`: one
record per key; every record carries the heuristic of its key and the cost of
some path from a start node; no closed record passes the goal check; every start
node seeded within the cost ceiling has a record at most as costly as its seed;
and every edge out of a closed
record was either cut by the cost ceiling or leads to a record at most as costly
as the edge makes it. -/
def Graph.Inv (G : Graph) (a : AyStar) (starts : List (AyStarNode × Nat))
    (s : SearchState) : Prop :=
  s.nodes.Unique ∧
  (∀ x, s.nodes.Mem x → x.h = G.heur x.key) ∧
  (∀ x, s.nodes.Mem x → ∃ p ∈ starts, ∃ c, G.Reach p.1 x.key c ∧ x.g = p.2 + c) ∧
  (∀ x ∈ s.nodes.closed_nodes, G.goal x.key = false) ∧
  (∀ p ∈ starts, ExceedsCost a p.2 = false → s.nodes.Covers p.1 p.2) ∧
  (∀ x ∈ s.nodes.closed_nodes, ∀ w d, w ∈ G.nbrs x.key → G.cost x.key w = some d →
    ExceedsCost a (x.g + d) = true ∨ s.nodes.Covers w (x.g + d))

/-- Sample: a node list with one closed record, of key (1, 0) and g = 5. -/
def sampleList : NodeList :=
  { open_nodes := [], closed_nodes := [⟨⟨1, 0⟩, none, 5, 0⟩] }

/-- Sample: the four-tile corridor of the specification's scenario, tiles 0 to 3
on trackdir 0, uniform edge cost 1, goal at tile 3. -/
def corridor : Graph :=
  { nbrs := fun n => if n.tile < 3 then [⟨n.tile + 1, n.td⟩] else [],
    cost := fun _ _ => some 1,
    heur := fun n => 3 - n.tile,
    goal := fun n => n.tile == 3 }

end Pathfinder

/-!
# Companies (`src/company_base.h`)

`company_base.h` defines the validity tests on company indices and the rail
total of a company's infrastructure.  The pool template behind
`Company::GetIfValid` and `Company::Get` is not part of the header, and neither
is the number of rail types; the tests are embedded over an arbitrary pool and
an arbitrary number of rail types.
-/

namespace CompanyBase

/-- Source: `struct Company : CompanyProperties, ...`, of which the tests read
the field `bool is_ai`. -/
structure Company where
  is_ai : Bool
  deriving DecidableEq, Repr

/-- The state of the company pool as the tests see it: what `Company::GetIfValid`
and `Company::Get` answer at each index. -/
structure CompanyPool where
  /-- Source: `Company::GetIfValid(index)`, a company or `nullptr`. -/
  GetIfValid : Nat → Option Company
  /-- Source: `Company::Get(index)`, a company; it has no result where its
  precondition, "index must be a valid CompanyID", fails. -/
  Get : Nat → Option Company

/-- The two pool accessors agree on valid indices: where `GetIfValid` answers a
company, `Get` answers the same company. -/
def CompanyPool.Coherent (pool : CompanyPool) : Prop :=
  ∀ index c, pool.GetIfValid index = some c → pool.Get index = some c

/-- Source: `IsValidAiID(index)`:
`const Company *c = Company::GetIfValid(index); return c != nullptr && c->is_ai;` -/
def IsValidAiID (pool : CompanyPool) (index : Nat) : Bool :=
  match pool.GetIfValid index with
  | some c => c.is_ai
  | none => false

/-- Source: `IsValidHumanID(index)`:
`const Company *c = Company::GetIfValid(index); return c != nullptr && !c->is_ai;` -/
def IsValidHumanID (pool : CompanyPool) (index : Nat) : Bool :=
  match pool.GetIfValid index with
  | some c => !c.is_ai
  | none => false

/-- Source: `IsHumanID(index) { return !Company::Get(index)->is_ai; }` -/
def IsHumanID (pool : CompanyPool) (index : Nat) : Option Bool :=
  match pool.Get index with
  | some c => some (!c.is_ai)
  | none => none

/-- Source: `struct CompanyInfrastructure`, of which `GetRailTotal` reads
`std::array<uint32_t, RAILTYPE_END> rail`; its entries are 32-bit unsigned. -/
structure CompanyInfrastructure where
  rail : List Nat

/-- The entries of the rail array are values of `uint32_t`. -/
def CompanyInfrastructure.WellFormed (ci : CompanyInfrastructure) : Prop :=
  ∀ x ∈ ci.rail, x < 2 ^ 32

/-- Source: `GetRailTotal()`:
`return std::accumulate(std::begin(this->rail), std::end(this->rail), 0U);`
The accumulator has the type of `0U`, a 32-bit `unsigned int`, so every addition
is taken modulo `2 ^ 32`. -/
def GetRailTotal (ci : CompanyInfrastructure) : Nat :=
  ci.rail.foldl (fun acc x => (acc + x) % 2 ^ 32) 0

/-- Sample: a pool with an AI company at index 0, a human company at index 1 and
no company elsewhere. -/
def samplePool : CompanyPool :=
  { GetIfValid := fun i => if i = 0 then some ⟨true⟩ else if i = 1 then some ⟨false⟩ else none,
    Get := fun i => if i = 0 then some ⟨true⟩ else if i = 1 then some ⟨false⟩ else none }

end CompanyBase

namespace Rail

/-! ## Supporting lemmas -/

theorem mem_trackdirs_iff (t : Nat) : t ∈ trackdirs ↔ t ≤ 5 ∨ (8 ≤ t ∧ t ≤ 13) := by
  constructor
  · revert t; decide
  · rintro (h | ⟨h1, h2⟩) <;> interval_cases t <;> decide

theorem mem_tracks_iff (k : Nat) : k ∈ tracks ↔ k ≤ 5 := by
  constructor
  · revert k; decide
  · intro h; interval_cases k <;> decide

theorem isValidTrack_iff (k : Nat) : IsValidTrack k = true ↔ k ∈ tracks := by
  rw [mem_tracks_iff]; simp [IsValidTrack, TRACK_END]; omega

theorem trackdirs_nodup : trackdirs.Nodup := by decide

theorem railTables_wellSized : railTables.WellSized := by
  refine ⟨rfl, rfl, rfl, rfl, rfl, rfl, ?_⟩
  decide

/-- The modelled reachability sets agree with the modelled exit directions: a
trackdir `d` is in the set of exit direction `e` exactly when travelling `d`
backwards leaves its cell through the edge opposite to `e`. -/
theorem reaches_table_consistent :
    ∀ e ∈ diagdirs, ∀ d ∈ trackdirs, ∀ r ∈ railTables._exitdir_reaches_trackdirs[e]?,
      (r &&& TrackdirToTrackdirBits d ≠ 0 ↔
        (match ReverseTrackdir railTables d with
          | some d' => TrackdirToExitdir railTables d'
          | none => none) = ReverseDiagdir railTables e) := by
  decide

/-! ## Theorems -/

/-- C1: for each of the twelve trackdirs `t` (0-5 and 8-13), `TrackdirToTrack t`
is `t & 7`, it passes `IsValidTrack`, and it is `t` for `t` in 0-5 and `t - 8`
for `t` in 8-13. -/
theorem trackdirToTrack_valid (t : Nat) (ht : t ≤ 5 ∨ (8 ≤ t ∧ t ≤ 13)) :
    t ∈ trackdirs ∧ TrackdirToTrack t = t &&& 7 ∧
      IsValidTrack (TrackdirToTrack t) = true ∧
      (t ≤ 5 → TrackdirToTrack t = t) ∧
      (8 ≤ t → TrackdirToTrack t = t - 8) := by
  have hm := (mem_trackdirs_iff t).2 ht
  refine ⟨hm, ?_⟩
  clear ht
  revert t
  decide

theorem trackdirToTrack_valid_witness :
    11 ∈ trackdirs ∧ TrackdirToTrack 11 = 11 &&& 7 ∧
      IsValidTrack (TrackdirToTrack 11) = true ∧
      (11 ≤ 5 → TrackdirToTrack 11 = 11) ∧
      (8 ≤ 11 → TrackdirToTrack 11 = 11 - 8) :=
  trackdirToTrack_valid 11 (by decide)

/-- C2 (the code departs from it): `IsValidTrackdir` is `trackdir < TRACKDIR_END`
with `TRACKDIR_END = 14`, so it accepts the fourteen values 0-13 and not twelve:
it answers true on the gap values 6 and 7, which are none of the twelve
trackdirs.  It accepts each of the twelve and rejects the sentinel
`INVALID_TRACKDIR`. -/
theorem isValidTrackdir_accepts_gap :
    IsValidTrackdir 6 = true ∧ IsValidTrackdir 7 = true ∧
      6 ∉ trackdirs ∧ 7 ∉ trackdirs ∧
      IsValidTrackdir INVALID_TRACKDIR = false ∧
      trackdirs.all IsValidTrackdir = true ∧
      (List.range 256).filter IsValidTrackdir = List.range 14 ∧
      (∀ t, IsValidTrackdir t = true ↔ t ≤ 13) := by
  refine ⟨by decide, by decide, by decide, by decide, by decide, by decide, by decide, ?_⟩
  intro t
  simp [IsValidTrackdir, TRACKDIR_END]
  omega

/-- C3: for every valid track `k` (0-5), `TrackToTrackdir k` is one of the twelve
trackdirs, passes `IsValidTrackdir`, has the numeric value `k`, and
`TrackdirToTrack (TrackToTrackdir k) = k`. -/
theorem track_trackdir_track (k : Nat) (hk : IsValidTrack k = true) :
    TrackToTrackdir k ∈ trackdirs ∧ IsValidTrackdir (TrackToTrackdir k) = true ∧
      TrackToTrackdir k = k ∧ TrackdirToTrack (TrackToTrackdir k) = k := by
  have hm := (isValidTrack_iff k).1 hk
  clear hk
  revert k
  decide

theorem track_trackdir_track_witness :
    TrackToTrackdir 4 ∈ trackdirs ∧ IsValidTrackdir (TrackToTrackdir 4) = true ∧
      TrackToTrackdir 4 = 4 ∧ TrackdirToTrack (TrackToTrackdir 4) = 4 :=
  track_trackdir_track 4 (by decide)

/-- C4: `TrackdirToTrack` restricted to the twelve trackdirs is two-to-one onto
the six valid tracks: for a valid track `k`, the trackdirs `t` among the twelve
with `TrackdirToTrack t = k` are exactly the two distinct values `k` and `k + 8`;
and every one of the twelve trackdirs is mapped to a valid track. -/
theorem trackdirToTrack_two_to_one (k : Nat) (hk : IsValidTrack k = true) :
    trackdirs.filter (fun t => TrackdirToTrack t == k) = [k, k + 8] ∧
      k ≠ k + 8 ∧
      (∀ t ∈ trackdirs, TrackdirToTrack t = k ↔ t = k ∨ t = k + 8) ∧
      (∀ t ∈ trackdirs, IsValidTrack (TrackdirToTrack t) = true) := by
  have hm := (isValidTrack_iff k).1 hk
  clear hk
  revert k
  decide

theorem trackdirToTrack_two_to_one_witness :
    trackdirs.filter (fun t => TrackdirToTrack t == 3) = [3, 3 + 8] ∧
      3 ≠ 3 + 8 ∧
      (∀ t ∈ trackdirs, TrackdirToTrack t = 3 ↔ t = 3 ∨ t = 3 + 8) ∧
      (∀ t ∈ trackdirs, IsValidTrack (TrackdirToTrack t) = true) :=
  trackdirToTrack_two_to_one 3 (by decide)

/-- C5 (on the modelled table): for each of the twelve trackdirs `t`,
`ReverseTrackdir t` is again one of the twelve and
`ReverseTrackdir (ReverseTrackdir t) = t`. -/
theorem reverseTrackdir_involution (t : Nat) (ht : t ∈ trackdirs) :
    ∃ r, ReverseTrackdir railTables t = some r ∧ r ∈ trackdirs ∧
      ReverseTrackdir railTables r = some t := by
  revert t
  decide

theorem reverseTrackdir_involution_witness :
    ∃ r, ReverseTrackdir railTables 10 = some r ∧ r ∈ trackdirs ∧
      ReverseTrackdir railTables r = some 10 :=
  reverseTrackdir_involution 10 (by decide)

/-- C6 (on the modelled table): for each of the twelve trackdirs `t`,
`TrackdirToTrack (ReverseTrackdir t) = TrackdirToTrack t`; the reverse is the
other trackdir of the same track. -/
theorem reverseTrackdir_same_track (t : Nat) (ht : t ∈ trackdirs) :
    ∃ r, ReverseTrackdir railTables t = some r ∧
      TrackdirToTrack r = TrackdirToTrack t ∧ r ≠ t := by
  revert t
  decide

theorem reverseTrackdir_same_track_witness :
    ∃ r, ReverseTrackdir railTables 5 = some r ∧
      TrackdirToTrack r = TrackdirToTrack 5 ∧ r ≠ 5 :=
  reverseTrackdir_same_track 5 (by decide)

/-- C7 (on the modelled table): for every valid track `k`,
`TrackCrossesTracks k & TrackToTrackBits k = 0`: the set of tracks crossing `k`
does not contain `k`. -/
theorem trackCrossesTracks_irreflexive (k : Nat) (hk : IsValidTrack k = true) :
    ∃ c, TrackCrossesTracks railTables k = some c ∧ c &&& TrackToTrackBits k = 0 := by
  have hm := (isValidTrack_iff k).1 hk
  clear hk
  revert k
  decide

theorem trackCrossesTracks_irreflexive_witness :
    ∃ c, TrackCrossesTracks railTables 2 = some c ∧ c &&& TrackToTrackBits 2 = 0 :=
  trackCrossesTracks_irreflexive 2 (by decide)

/-- C8: among the valid tracks exactly `TRACK_DIAG1` and `TRACK_DIAG2` are
diagonal (two of the six), and for each of the twelve trackdirs `t`,
`IsDiagonalTrackdir t` holds exactly for `t` in {0, 1, 8, 9} and has the same
value on `t` and on `t XOR 8`, the other direction of the same track. -/
theorem diagonal_tracks (k t : Nat) (hk : IsValidTrack k = true) (ht : t ∈ trackdirs) :
    (IsDiagonalTrack k = true ↔ k = TRACK_DIAG1 ∨ k = TRACK_DIAG2) ∧
      tracks.filter IsDiagonalTrack = [TRACK_DIAG1, TRACK_DIAG2] ∧
      (IsDiagonalTrackdir t = true ↔ t = 0 ∨ t = 1 ∨ t = 8 ∨ t = 9) ∧
      t ^^^ 8 ∈ trackdirs ∧ TrackdirToTrack (t ^^^ 8) = TrackdirToTrack t ∧
      IsDiagonalTrackdir (t ^^^ 8) = IsDiagonalTrackdir t := by
  have hm := (isValidTrack_iff k).1 hk
  clear hk
  refine ⟨?_, by decide, ?_⟩
  · revert k; decide
  · revert t; decide

theorem diagonal_tracks_witness :
    (IsDiagonalTrack 1 = true ↔ 1 = TRACK_DIAG1 ∨ 1 = TRACK_DIAG2) ∧
      tracks.filter IsDiagonalTrack = [TRACK_DIAG1, TRACK_DIAG2] ∧
      (IsDiagonalTrackdir 12 = true ↔ 12 = 0 ∨ 12 = 1 ∨ 12 = 8 ∨ 12 = 9) ∧
      12 ^^^ 8 ∈ trackdirs ∧ TrackdirToTrack (12 ^^^ 8) = TrackdirToTrack 12 ∧
      IsDiagonalTrackdir (12 ^^^ 8) = IsDiagonalTrackdir 12 :=
  diagonal_tracks 1 12 (by decide) (by decide)

/-- C9 (on the modelled tables): for every diagonal trackdir `t`,
`TrackdirReachesTrackdirs t` contains the straight-ahead continuation
`NextTrackdir t`:
`TrackdirReachesTrackdirs t & TrackdirToTrackdirBits (NextTrackdir t) != 0`. -/
theorem reaches_contains_next (t : Nat) (ht : t ∈ trackdirs)
    (hd : IsDiagonalTrackdir t = true) :
    ∃ r n, TrackdirReachesTrackdirs railTables t = some r ∧
      NextTrackdir railTables t = some n ∧ r &&& TrackdirToTrackdirBits n ≠ 0 := by
  have key : ∀ d ∈ trackdirs, IsDiagonalTrackdir d = true →
      ∃ r n, TrackdirReachesTrackdirs railTables d = some r ∧
        NextTrackdir railTables d = some n ∧ r &&& TrackdirToTrackdirBits n ≠ 0 := by
    intro d hdm
    fin_cases hdm <;> intro h <;> first
      | exact absurd h (by decide)
      | exact ⟨_, _, rfl, rfl, by decide⟩
  exact key t ht hd

theorem reaches_contains_next_witness :
    ∃ r n, TrackdirReachesTrackdirs railTables 9 = some r ∧
      NextTrackdir railTables 9 = some n ∧ r &&& TrackdirToTrackdirBits n ≠ 0 :=
  reaches_contains_next 9 (by decide) (by decide)

/-- C10: whatever the tables hold, `TrackdirReachesTrackdirs t` is the entry of
the per-exit-direction table `_exitdir_reaches_trackdirs` at index
`TrackdirToExitdir t`; so two trackdirs with the same exit direction have the
same reachable set.  With tables of the declared sizes, both lookups succeed on
each of the twelve trackdirs. -/
theorem reaches_by_exitdir (T : RailTables) (a b : Nat)
    (hab : TrackdirToExitdir T a = TrackdirToExitdir T b) :
    TrackdirReachesTrackdirs T a =
        (TrackdirToExitdir T a).bind (fun e => T._exitdir_reaches_trackdirs[e]?) ∧
      TrackdirReachesTrackdirs T a = TrackdirReachesTrackdirs T b ∧
      (T.WellSized → a ∈ trackdirs →
        ∃ e r, TrackdirToExitdir T a = some e ∧
          T._exitdir_reaches_trackdirs[e]? = some r ∧
          TrackdirReachesTrackdirs T a = some r) := by
  refine ⟨?_, ?_, ?_⟩
  · unfold TrackdirReachesTrackdirs
    cases TrackdirToExitdir T a <;> rfl
  · unfold TrackdirReachesTrackdirs
    rw [hab]
  · rintro ⟨-, -, hlen, hreach, -, -, hdir⟩ ha
    have ha14 : a < T._trackdir_to_exitdir.length := by
      rw [hlen]
      have := (mem_trackdirs_iff a).1 ha
      simp only [TRACKDIR_END]
      omega
    have he : T._trackdir_to_exitdir[a]? = some (T._trackdir_to_exitdir[a]) :=
      List.getElem?_eq_getElem ha14
    have hlt := hdir a ha _ he
    have he4 : T._trackdir_to_exitdir[a] < T._exitdir_reaches_trackdirs.length := by
      rw [hreach]; exact hlt
    refine ⟨_, _, he, List.getElem?_eq_getElem he4, ?_⟩
    unfold TrackdirReachesTrackdirs TrackdirToExitdir
    rw [he]
    exact List.getElem?_eq_getElem he4

theorem reaches_by_exitdir_witness :
    TrackdirReachesTrackdirs railTables 2 =
        (TrackdirToExitdir railTables 2).bind
          (fun e => railTables._exitdir_reaches_trackdirs[e]?) ∧
      TrackdirReachesTrackdirs railTables 2 = TrackdirReachesTrackdirs railTables 13 ∧
      (railTables.WellSized → 2 ∈ trackdirs →
        ∃ e r, TrackdirToExitdir railTables 2 = some e ∧
          railTables._exitdir_reaches_trackdirs[e]? = some r ∧
          TrackdirReachesTrackdirs railTables 2 = some r) :=
  reaches_by_exitdir railTables 2 13 (by decide)

/-! ## Bit sets and rail tiles -/

theorem and_mask_lt (x : Nat) : x &&& TRACK_BIT_MASK < 64 := by
  have h : x &&& TRACK_BIT_MASK = x % 2 ^ 6 := Nat.and_pow_two_sub_one_eq_mod x 6
  rw [h]
  exact Nat.mod_lt _ (by decide)

theorem testBit_and_mask (x k : Nat) (hk : k < 6) :
    (x &&& TRACK_BIT_MASK).testBit k = x.testBit k := by
  have h : x &&& TRACK_BIT_MASK = x % 2 ^ 6 := Nat.and_pow_two_sub_one_eq_mod x 6
  rw [h, Nat.testBit_mod_two_pow]
  simp [hk]

theorem hasbit_eq_testBit_small : ∀ y < 64, ∀ k < 6, HASBIT y k = y.testBit k := by
  decide

theorem orAll_set_bits_small :
    ∀ y < 64, y = orAll ((tracks.filter (fun j => HASBIT y j)).map TrackToTrackBits) ∧
      y &&& TRACK_BIT_MASK = y ∧ y ≤ TRACK_BIT_MASK := by
  decide

set_option maxRecDepth 4096 in
theorem tile_type_cases :
    ∀ y < 193, y &&& RAIL_TILE_TYPE_MASK = y →
      ((y = RAIL_TYPE_NORMAL ∨ y = RAIL_TYPE_SIGNALS) ↔ y &&& RAIL_TYPE_SPECIAL = 0) := by
  decide

theorem getRailTileType_railway (M : MapArrays) (tile : Nat)
    (hr : M.IsRailwayTile tile = true) :
    GetRailTileType M tile = some (M._map5 tile &&& RAIL_TILE_TYPE_MASK) := by
  simp [GetRailTileType, hr]

theorem plain_tile_inv (M : MapArrays) (tile : Nat)
    (hplain : IsPlainRailTile M tile = some true) :
    M.IsRailwayTile tile = true ∧
      ((M._map5 tile &&& RAIL_TILE_TYPE_MASK == RAIL_TYPE_NORMAL
        || M._map5 tile &&& RAIL_TILE_TYPE_MASK == RAIL_TYPE_SIGNALS) = true) := by
  unfold IsPlainRailTile GetRailTileType at hplain
  by_cases hr : M.IsRailwayTile tile = true
  · refine ⟨hr, ?_⟩
    simpa [hr] using hplain
  · simp [hr] at hplain

theorem getTrackBits_plain (M : MapArrays) (tile : Nat)
    (hplain : IsPlainRailTile M tile = some true) :
    GetTrackBits M tile = some (M._map5 tile &&& TRACK_BIT_MASK) := by
  obtain ⟨hr, ht⟩ := plain_tile_inv M tile hplain
  unfold GetTrackBits
  rw [getRailTileType_railway M tile hr]
  simp only []
  rw [Bool.or_eq_true] at ht
  rcases ht with h | h
  · simp [h]
  · have h2 : (M._map5 tile &&& RAIL_TILE_TYPE_MASK) = RAIL_TYPE_SIGNALS := by simpa using h
    simp [h2]

theorem hasTrack_plain (M : MapArrays) (tile k : Nat)
    (hplain : IsPlainRailTile M tile = some true) (hk : IsValidTrack k = true) :
    HasTrack M tile k = some (HASBIT (M._map5 tile &&& TRACK_BIT_MASK) k) := by
  unfold HasTrack
  rw [getTrackBits_plain M tile hplain]
  simp [hk]

/-- C11: for each of the twelve trackdirs `t`, `TrackdirToTrackdirBits t = 1 << t`
has exactly one bit set (bit `t`), distinct trackdirs give distinct bits, the
bit lies inside `TRACKDIR_BIT_MASK` and outside bits 6, 7, 14 and 15, the OR over
all twelve is `TRACKDIR_BIT_MASK`, and the OR of `TrackToTrackBits` over the six
tracks is `TRACK_BIT_MASK`. -/
theorem trackdirBits_single_bit (t : Nat) (ht : t ∈ trackdirs) :
    TrackdirToTrackdirBits t = 2 ^ t ∧
      (∀ i, (TrackdirToTrackdirBits t).testBit i = true ↔ i = t) ∧
      (∀ u ∈ trackdirs, TrackdirToTrackdirBits u = TrackdirToTrackdirBits t → u = t) ∧
      TrackdirToTrackdirBits t &&& TRACKDIR_BIT_MASK = TrackdirToTrackdirBits t ∧
      TrackdirToTrackdirBits t &&& 0xC0C0 = 0 ∧
      orAll (trackdirs.map TrackdirToTrackdirBits) = TRACKDIR_BIT_MASK ∧
      TRACKDIR_BIT_MASK &&& 0xC0C0 = 0 ∧
      orAll (tracks.map TrackToTrackBits) = TRACK_BIT_MASK := by
  have h2 : TrackdirToTrackdirBits t = 2 ^ t := Nat.one_shiftLeft t
  refine ⟨h2, ?_, ?_, ?_, ?_, by decide, by decide, by decide⟩
  · intro i
    rw [h2, Nat.testBit_two_pow]
    simp [eq_comm]
  · intro u _ hu
    have hu2 : (2 : Nat) ^ u = 2 ^ t := by
      rw [← Nat.one_shiftLeft u, ← h2]; exact hu
    exact Nat.pow_right_injective (le_refl 2) hu2
  · revert t; decide
  · revert t; decide

theorem trackdirBits_single_bit_witness :
    TrackdirToTrackdirBits 9 = 2 ^ 9 ∧
      (∀ i, (TrackdirToTrackdirBits 9).testBit i = true ↔ i = 9) ∧
      (∀ u ∈ trackdirs, TrackdirToTrackdirBits u = TrackdirToTrackdirBits 9 → u = 9) ∧
      TrackdirToTrackdirBits 9 &&& TRACKDIR_BIT_MASK = TrackdirToTrackdirBits 9 ∧
      TrackdirToTrackdirBits 9 &&& 0xC0C0 = 0 ∧
      orAll (trackdirs.map TrackdirToTrackdirBits) = TRACKDIR_BIT_MASK ∧
      TRACKDIR_BIT_MASK &&& 0xC0C0 = 0 ∧
      orAll (tracks.map TrackToTrackBits) = TRACK_BIT_MASK :=
  trackdirBits_single_bit 9 (by decide)

/-- C12: on a tile that has a signal on the track of a valid trackdir `t`,
`GetSignalState tile t` returns `SIGNALSTATE_GREEN` exactly when
`_map2[tile] & SignalAlongTrackdir(t)` is non-zero and `SIGNALSTATE_RED`
otherwise; and any other map content that also has the signal and agrees on
`_map2[tile] & SignalAlongTrackdir(t)` gives the same state. -/
theorem getSignalState_spec (M : MapArrays) (S : SignalTables) (tile t : Nat)
    (hv : IsValidTrackdir t = true)
    (hsig : HasSignalOnTrack M S tile (TrackdirToTrack t) = some true)
    (hlen : S._signal_along_trackdir.length = TRACKDIR_END) :
    ∃ bit, SignalAlongTrackdir S t = some bit ∧
      GetSignalState M S tile t =
        some (if M._map2 tile &&& bit ≠ 0 then SIGNALSTATE_GREEN else SIGNALSTATE_RED) ∧
      (GetSignalState M S tile t = some SIGNALSTATE_GREEN ↔ M._map2 tile &&& bit ≠ 0) ∧
      (GetSignalState M S tile t = some SIGNALSTATE_RED ↔ M._map2 tile &&& bit = 0) ∧
      (∀ M' : MapArrays, HasSignalOnTrack M' S tile (TrackdirToTrack t) = some true →
        M'._map2 tile &&& bit = M._map2 tile &&& bit →
        GetSignalState M' S tile t = GetSignalState M S tile t) := by
  have hlt : t < S._signal_along_trackdir.length := by
    rw [hlen]; simpa [IsValidTrackdir] using hv
  have hbit : SignalAlongTrackdir S t = some (S._signal_along_trackdir[t]) :=
    List.getElem?_eq_getElem hlt
  have key : ∀ M' : MapArrays, HasSignalOnTrack M' S tile (TrackdirToTrack t) = some true →
      GetSignalState M' S tile t =
        some (if M'._map2 tile &&& S._signal_along_trackdir[t] ≠ 0
          then SIGNALSTATE_GREEN else SIGNALSTATE_RED) := by
    intro M' h'
    unfold GetSignalState
    rw [h', hbit]
    simp [hv]
  refine ⟨_, hbit, key M hsig, ?_, ?_, ?_⟩
  · rw [key M hsig]
    by_cases h : M._map2 tile &&& S._signal_along_trackdir[t] = 0 <;>
      simp [h, SIGNALSTATE_GREEN, SIGNALSTATE_RED]
  · rw [key M hsig]
    by_cases h : M._map2 tile &&& S._signal_along_trackdir[t] = 0 <;>
      simp [h, SIGNALSTATE_GREEN, SIGNALSTATE_RED]
  · intro M' h' heq
    rw [key M hsig, key M' h', heq]

/-- C19: on a plain rail tile and for a valid track `k`, `HasTrack tile k` is bit
`k` of `_map5[tile]`, `GetTrackBits tile` is the OR of `TrackToTrackBits j` over
the valid tracks `j` with `HasTrack tile j`, and `GetTrackBits tile` has no bit
outside `TRACK_BIT_MASK`. -/
theorem hasTrack_getTrackBits (M : MapArrays) (tile k : Nat)
    (hplain : IsPlainRailTile M tile = some true) (hk : IsValidTrack k = true) :
    HasTrack M tile k = some ((M._map5 tile).testBit k) ∧
      ∃ b, GetTrackBits M tile = some b ∧
        b = orAll ((tracks.filter (fun j => HasTrack M tile j == some true)).map
              TrackToTrackBits) ∧
        b &&& TRACK_BIT_MASK = b ∧ b ≤ TRACK_BIT_MASK := by
  have hy := and_mask_lt (M._map5 tile)
  have hk6 : k < 6 := by simpa [IsValidTrack, TRACK_END] using hk
  constructor
  · rw [hasTrack_plain M tile k hplain hk,
      hasbit_eq_testBit_small _ hy k hk6, testBit_and_mask _ _ hk6]
  · refine ⟨_, getTrackBits_plain M tile hplain, ?_, (orAll_set_bits_small _ hy).2⟩
    have hf : tracks.filter (fun j => HasTrack M tile j == some true) =
        tracks.filter (fun j => HASBIT (M._map5 tile &&& TRACK_BIT_MASK) j) := by
      apply List.filter_congr
      intro j hj
      rw [hasTrack_plain M tile j hplain ((isValidTrack_iff j).2 hj)]
      cases HASBIT (M._map5 tile &&& TRACK_BIT_MASK) j <;> rfl
    rw [hf]
    exact (orAll_set_bits_small _ hy).1

/-- C20: on a railway tile, `IsPlainRailTile tile` holds exactly when
`GetRailTileType tile` is `RAIL_TYPE_NORMAL` or `RAIL_TYPE_SIGNALS`, which is
exactly when the `RAIL_TYPE_SPECIAL` bit of `_map5[tile]` is clear;
`HasSignals tile` implies `IsPlainRailTile tile`; and the assertion of
`GetTrackBits` passes exactly when `IsPlainRailTile tile` holds. -/
theorem isPlainRailTile_spec (M : MapArrays) (tile : Nat)
    (hr : M.IsRailwayTile tile = true) :
    ∃ rtt p, GetRailTileType M tile = some rtt ∧ IsPlainRailTile M tile = some p ∧
      (p = true ↔ rtt = RAIL_TYPE_NORMAL ∨ rtt = RAIL_TYPE_SIGNALS) ∧
      (p = true ↔ M._map5 tile &&& RAIL_TYPE_SPECIAL = 0) ∧
      (HasSignals M tile = some true → p = true) ∧
      ((GetTrackBits M tile).isSome = true ↔ p = true) := by
  have hg := getRailTileType_railway M tile hr
  have hle : M._map5 tile &&& RAIL_TILE_TYPE_MASK < 193 :=
    Nat.lt_succ_of_le Nat.and_le_right
  have hidem : (M._map5 tile &&& RAIL_TILE_TYPE_MASK) &&& RAIL_TILE_TYPE_MASK =
      M._map5 tile &&& RAIL_TILE_TYPE_MASK := by
    rw [Nat.and_assoc, Nat.and_self]
  have hsp : (M._map5 tile &&& RAIL_TILE_TYPE_MASK) &&& RAIL_TYPE_SPECIAL =
      M._map5 tile &&& RAIL_TYPE_SPECIAL := by
    rw [Nat.and_assoc]; rfl
  have hc := tile_type_cases _ hle hidem
  rw [hsp] at hc
  have hp : IsPlainRailTile M tile =
      some (M._map5 tile &&& RAIL_TILE_TYPE_MASK == RAIL_TYPE_NORMAL
        || M._map5 tile &&& RAIL_TILE_TYPE_MASK == RAIL_TYPE_SIGNALS) := by
    unfold IsPlainRailTile; rw [hg]
  have hiff : (M._map5 tile &&& RAIL_TILE_TYPE_MASK == RAIL_TYPE_NORMAL
        || M._map5 tile &&& RAIL_TILE_TYPE_MASK == RAIL_TYPE_SIGNALS) = true ↔
      (M._map5 tile &&& RAIL_TILE_TYPE_MASK = RAIL_TYPE_NORMAL ∨
        M._map5 tile &&& RAIL_TILE_TYPE_MASK = RAIL_TYPE_SIGNALS) := by
    simp
  refine ⟨_, _, hg, hp, hiff, hiff.trans hc, ?_, ?_⟩
  · intro hs
    unfold HasSignals at hs
    rw [hg] at hs
    have hs2 : M._map5 tile &&& RAIL_TILE_TYPE_MASK = RAIL_TYPE_SIGNALS := by simpa using hs
    exact hiff.2 (Or.inr hs2)
  · constructor
    · intro hsome
      unfold GetTrackBits at hsome
      rw [hg] at hsome
      by_contra hne
      simp only [] at hsome
      rw [if_neg hne] at hsome
      simp at hsome
    · intro hpt
      rw [getTrackBits_plain M tile (hp.trans (congrArg some hpt))]
      rfl

theorem getSignalState_spec_witness :
    ∃ bit, SignalAlongTrackdir sampleSignals 8 = some bit ∧
      GetSignalState sampleMap sampleSignals 0 8 =
        some (if sampleMap._map2 0 &&& bit ≠ 0 then SIGNALSTATE_GREEN else SIGNALSTATE_RED) ∧
      (GetSignalState sampleMap sampleSignals 0 8 = some SIGNALSTATE_GREEN ↔
        sampleMap._map2 0 &&& bit ≠ 0) ∧
      (GetSignalState sampleMap sampleSignals 0 8 = some SIGNALSTATE_RED ↔
        sampleMap._map2 0 &&& bit = 0) ∧
      (∀ M' : MapArrays, HasSignalOnTrack M' sampleSignals 0 (TrackdirToTrack 8) = some true →
        M'._map2 0 &&& bit = sampleMap._map2 0 &&& bit →
        GetSignalState M' sampleSignals 0 8 = GetSignalState sampleMap sampleSignals 0 8) :=
  getSignalState_spec sampleMap sampleSignals 0 8 (by decide) (by decide) (by decide)

theorem hasTrack_getTrackBits_witness :
    HasTrack sampleMap 0 1 = some ((sampleMap._map5 0).testBit 1) ∧
      ∃ b, GetTrackBits sampleMap 0 = some b ∧
        b = orAll ((tracks.filter (fun j => HasTrack sampleMap 0 j == some true)).map
              TrackToTrackBits) ∧
        b &&& TRACK_BIT_MASK = b ∧ b ≤ TRACK_BIT_MASK :=
  hasTrack_getTrackBits sampleMap 0 1 (by decide) (by decide)

theorem isPlainRailTile_spec_witness :
    ∃ rtt p, GetRailTileType sampleMap 0 = some rtt ∧ IsPlainRailTile sampleMap 0 = some p ∧
      (p = true ↔ rtt = RAIL_TYPE_NORMAL ∨ rtt = RAIL_TYPE_SIGNALS) ∧
      (p = true ↔ sampleMap._map5 0 &&& RAIL_TYPE_SPECIAL = 0) ∧
      (HasSignals sampleMap 0 = some true → p = true) ∧
      ((GetTrackBits sampleMap 0).isSome = true ↔ p = true) :=
  isPlainRailTile_spec sampleMap 0 (by decide)

/-! ## Signals and rail types -/

/-- C21: on a railway tile and for a valid track `k`, `HasSignalOnTrack tile k`
implies `HasSignals tile`: on a tile whose rail tile type is not
`RAIL_TYPE_SIGNALS` it is false whatever `_map3_lo[tile]` holds, and on a signal
tile it is true exactly when `_map3_lo[tile] & SignalOnTrack(k)` is non-zero. -/
theorem hasSignalOnTrack_spec (M : MapArrays) (S : SignalTables) (tile k : Nat)
    (hr : M.IsRailwayTile tile = true) (hk : IsValidTrack k = true)
    (hlen : S._signal_on_track.length = TRACK_END) :
    ∃ b hs bits, HasSignalOnTrack M S tile k = some b ∧ HasSignals M tile = some hs ∧
      SignalOnTrack S k = some bits ∧
      (b = true → hs = true) ∧ (hs = false → b = false) ∧
      (hs = true → (b = true ↔ M._map3_lo tile &&& bits ≠ 0)) := by
  have hlt : k < S._signal_on_track.length := by
    rw [hlen]; simpa [IsValidTrack] using hk
  have hbits : SignalOnTrack S k = some (S._signal_on_track[k]) :=
    List.getElem?_eq_getElem hlt
  have hg := getRailTileType_railway M tile hr
  have hhs : HasSignals M tile =
      some (M._map5 tile &&& RAIL_TILE_TYPE_MASK == RAIL_TYPE_SIGNALS) := by
    unfold HasSignals; rw [hg]
  cases hty : (M._map5 tile &&& RAIL_TILE_TYPE_MASK == RAIL_TYPE_SIGNALS) with
  | false =>
    refine ⟨false, false, _, ?_, by rw [hhs, hty], hbits, ?_, ?_, ?_⟩
    · unfold HasSignalOnTrack
      rw [hg]
      simp [hk, hty]
    · intro h; cases h
    · intro _; rfl
    · intro h; cases h
  | true =>
    refine ⟨(M._map3_lo tile &&& S._signal_on_track[k]) != 0, true, _, ?_,
      by rw [hhs, hty], hbits, ?_, ?_, ?_⟩
    · unfold HasSignalOnTrack
      rw [hg, hbits]
      simp [hk, hty]
    · intro _; rfl
    · intro h; cases h
    · intro _
      simp

theorem hasSignalOnTrack_spec_witness :
    ∃ b hs bits, HasSignalOnTrack sampleMap sampleSignals 0 1 = some b ∧
      HasSignals sampleMap 0 = some hs ∧ SignalOnTrack sampleSignals 1 = some bits ∧
      (b = true → hs = true) ∧ (hs = false → b = false) ∧
      (hs = true → (b = true ↔ sampleMap._map3_lo 0 &&& bits ≠ 0)) :=
  hasSignalOnTrack_spec sampleMap sampleSignals 0 1 (by decide) (by decide) (by decide)

/-- C22 (the code departs from it): `IsValidTrackdir` accepts the gap values 6
and 7, whose `TrackdirToTrack` is 6 and 7 and fails `IsValidTrack`; so
`GetSignalState tile 6` passes its first assertion and then fails the
`IsValidTrack` assertion of the `HasSignalOnTrack` call it makes.  Every other
value that `IsValidTrackdir` accepts is mapped to a valid track. -/
theorem gap_trackdir_fails_track_assertion :
    IsValidTrackdir 6 = true ∧ IsValidTrack (TrackdirToTrack 6) = false ∧
      IsValidTrackdir 7 = true ∧ IsValidTrack (TrackdirToTrack 7) = false ∧
      (∀ (M : MapArrays) (S : SignalTables) (tile : Nat),
        HasSignalOnTrack M S tile (TrackdirToTrack 6) = none ∧
        GetSignalState M S tile 6 = none) ∧
      ((List.range 256).filter
          (fun t => IsValidTrackdir t && !IsValidTrack (TrackdirToTrack t)) = [6, 7]) := by
  refine ⟨by decide, by decide, by decide, by decide, ?_, by decide⟩
  intro M S tile
  have h : HasSignalOnTrack M S tile (TrackdirToTrack 6) = none := by
    unfold HasSignalOnTrack
    simp [show IsValidTrack (TrackdirToTrack 6) = false by decide]
  refine ⟨h, ?_⟩
  unfold GetSignalState
  rw [h]
  simp [show IsValidTrackdir 6 = true by decide]

/-- C23 as stated fails: with the two low bits of `_map3_lo[tile]` both set,
`GetRailType tile` is 3, which is `RAILTYPE_END` and no rail type. -/
theorem getRailType_can_be_end :
    ¬ ∀ (M : MapArrays) (tile : Nat), GetRailType M tile < RAILTYPE_END := by
  intro h
  have h3 := h { sampleMap with _map3_lo := fun _ => 3 } 0
  revert h3
  decide

/-- C23 (amended): for every tile and every content of `_map3_lo[tile]`,
`GetRailType tile` is `_map3_lo[tile] & RAILTYPE_MASK`, the two low bits of
`_map3_lo[tile]` and nothing else of the map, a value of at most 3; it is below
`RAILTYPE_END` exactly when these two bits are not both set, and then it is one
of `RAILTYPE_RAIL`, `RAILTYPE_MONO` and `RAILTYPE_MAGLEV`; with both bits set it
is `RAILTYPE_END`. -/
theorem getRailType_range (M : MapArrays) (tile : Nat) :
    GetRailType M tile = M._map3_lo tile &&& RAILTYPE_MASK ∧
      GetRailType M tile = M._map3_lo tile % 4 ∧
      GetRailType M tile ≤ 3 ∧
      (GetRailType M tile < RAILTYPE_END ↔ M._map3_lo tile % 4 ≠ 3) ∧
      (M._map3_lo tile % 4 ≠ 3 →
        GetRailType M tile = RAILTYPE_RAIL ∨ GetRailType M tile = RAILTYPE_MONO ∨
          GetRailType M tile = RAILTYPE_MAGLEV) ∧
      (M._map3_lo tile % 4 = 3 → GetRailType M tile = RAILTYPE_END) ∧
      (∀ M' : MapArrays, M'._map3_lo tile = M._map3_lo tile →
        GetRailType M' tile = GetRailType M tile) := by
  have hmod : ∀ M' : MapArrays, GetRailType M' tile = M'._map3_lo tile % 4 :=
    fun M' => Nat.and_pow_two_sub_one_eq_mod (M'._map3_lo tile) 2
  have hlt : M._map3_lo tile % 4 < 4 := Nat.mod_lt _ (by decide)
  refine ⟨rfl, hmod M, ?_, ?_, ?_, ?_, ?_⟩
  · rw [hmod M]; omega
  · rw [hmod M]
    show M._map3_lo tile % 4 < 3 ↔ M._map3_lo tile % 4 ≠ 3
    omega
  · intro h
    rw [hmod M]
    show M._map3_lo tile % 4 = 0 ∨ M._map3_lo tile % 4 = 1 ∨ M._map3_lo tile % 4 = 2
    omega
  · intro h
    rw [hmod M]
    exact h
  · intro M' e
    rw [hmod M', hmod M, e]

theorem getRailType_range_witness :
    GetRailType sampleMap 0 = sampleMap._map3_lo 0 &&& RAILTYPE_MASK ∧
      GetRailType sampleMap 0 < RAILTYPE_END ∧
      (GetRailType sampleMap 0 = RAILTYPE_RAIL ∨ GetRailType sampleMap 0 = RAILTYPE_MONO ∨
        GetRailType sampleMap 0 = RAILTYPE_MAGLEV) ∧
      GetRailType { sampleMap with _map3_lo := fun _ => 7 } 0 = RAILTYPE_END :=
  ⟨(getRailType_range sampleMap 0).1,
    (getRailType_range sampleMap 0).2.2.2.1.2 (by decide),
    (getRailType_range sampleMap 0).2.2.2.2.1 (by decide),
    (getRailType_range { sampleMap with _map3_lo := fun _ => 7 } 0).2.2.2.2.2.1 (by decide)⟩

end Rail

namespace Pathfinder

open AystarStatus

/-! ## The node list -/

theorem findKey_eq_none {l : List PathNode} {k : AyStarNode} :
    findKey l k = none ↔ ∀ r ∈ l, r.key ≠ k := by
  unfold findKey
  rw [List.find?_eq_none]
  constructor
  · intro h r hr hk
    exact h r hr (by simp [hk])
  · intro h r hr hk
    exact h r hr (by simpa using hk)

theorem findKey_some {l : List PathNode} {k : AyStarNode} {r : PathNode}
    (h : findKey l k = some r) : r ∈ l ∧ r.key = k := by
  unfold findKey at h
  exact ⟨List.mem_of_find?_eq_some h, by simpa using List.find?_some h⟩

theorem mem_removeKey {l : List PathNode} {k : AyStarNode} {r : PathNode} :
    r ∈ removeKey l k ↔ r ∈ l ∧ r.key ≠ k := by
  unfold removeKey
  simp [List.mem_filter]

theorem findKey_removeKey_self (l : List PathNode) (k : AyStarNode) :
    findKey (removeKey l k) k = none := by
  rw [findKey_eq_none]
  intro r hr
  exact (mem_removeKey.1 hr).2

theorem findKey_removeKey_ne (l : List PathNode) {k k' : AyStarNode} (h : k' ≠ k) :
    findKey (removeKey l k) k' = findKey l k' := by
  induction l with
  | nil => rfl
  | cons r rs ih =>
    unfold removeKey findKey at *
    simp only [List.filter_cons, List.find?_cons]
    cases hA : (r.key != k) <;> cases hB : (r.key == k')
    · simpa using ih
    · exfalso
      have h1 : r.key = k := by simpa using hA
      have h2 : r.key = k' := by simpa using hB
      exact h (h2.symm.trans h1)
    · simpa [List.find?_cons, hB] using ih
    · simp [List.find?_cons, hB]

theorem findKey_append_new_ne (l : List PathNode) (n : PathNode) {k' : AyStarNode}
    (h : k' ≠ n.key) : findKey (l ++ [n]) k' = findKey l k' := by
  unfold findKey
  rw [List.find?_append]
  have : List.find? (fun r => r.key == k') [n] = none := by
    simp [List.find?_cons, Ne.symm h]
  rw [this]
  cases List.find? (fun r => r.key == k') l <;> rfl

theorem findKey_append_new_self (l : List PathNode) (n : PathNode)
    (h : findKey l n.key = none) : findKey (l ++ [n]) n.key = some n := by
  unfold findKey at *
  rw [List.find?_append, h]
  simp [List.find?_cons]

theorem bestOf_mem (b : PathNode) (l : List PathNode) : bestOf b l = b ∨ bestOf b l ∈ l := by
  induction l generalizing b with
  | nil => exact Or.inl rfl
  | cons r rs ih =>
    unfold bestOf
    split
    · rcases ih r with h | h
      · exact Or.inr (by rw [h]; exact List.mem_cons_self _ _)
      · exact Or.inr (List.mem_cons_of_mem _ h)
    · rcases ih b with h | h
      · exact Or.inl h
      · exact Or.inr (List.mem_cons_of_mem _ h)

theorem bestOf_le (b : PathNode) (l : List PathNode) :
    (bestOf b l).f ≤ b.f ∧ ∀ r ∈ l, (bestOf b l).f ≤ r.f := by
  induction l generalizing b with
  | nil => exact ⟨le_refl _, fun r hr => absurd hr (List.not_mem_nil r)⟩
  | cons x xs ih =>
    unfold bestOf
    split
    · rename_i hlt
      obtain ⟨h1, h2⟩ := ih x
      refine ⟨by omega, ?_⟩
      intro r hr
      rcases List.mem_cons.1 hr with e | e
      · rw [e]; exact h1
      · exact h2 r e
    · rename_i hlt
      obtain ⟨h1, h2⟩ := ih b
      refine ⟨h1, ?_⟩
      intro r hr
      rcases List.mem_cons.1 hr with e | e
      · rw [e]; omega
      · exact h2 r e

theorem popBest_none {nl : NodeList} : nl.PopBest = none ↔ nl.open_nodes = [] := by
  unfold NodeList.PopBest
  cases nl.open_nodes <;> simp

theorem popBest_some {nl : NodeList} {cur : PathNode} {rest : NodeList}
    (h : nl.PopBest = some (cur, rest)) :
    cur ∈ nl.open_nodes ∧ (∀ r ∈ nl.open_nodes, cur.f ≤ r.f) ∧
      rest.open_nodes = removeKey nl.open_nodes cur.key ∧
      rest.closed_nodes = nl.closed_nodes := by
  unfold NodeList.PopBest at h
  cases hl : nl.open_nodes with
  | nil => rw [hl] at h; simp at h
  | cons r rs =>
    rw [hl] at h
    simp only [Option.some.injEq, Prod.mk.injEq] at h
    obtain ⟨h1, h2⟩ := h
    subst h1
    subst h2
    refine ⟨?_, ?_, rfl, rfl⟩
    · rcases bestOf_mem r rs with e | e
      · rw [e]; exact List.mem_cons_self _ _
      · exact List.mem_cons_of_mem _ e
    · intro x hx
      rcases List.mem_cons.1 hx with e | e
      · rw [e]; exact (bestOf_le r rs).1
      · exact (bestOf_le r rs).2 x e

theorem removeKey_of_absent {l : List PathNode} {k : AyStarNode}
    (h : ∀ r ∈ l, r.key ≠ k) : removeKey l k = l := by
  unfold removeKey
  rw [List.filter_eq_self]
  intro r hr
  simpa using h r hr

theorem find_eq_none {nl : NodeList} {k : AyStarNode} :
    nl.Find k = none ↔ ∀ r, nl.Mem r → r.key ≠ k := by
  unfold NodeList.Find NodeList.FindOpenNode NodeList.FindClosedNode NodeList.Mem
  constructor
  · intro h r hr
    cases ho : findKey nl.open_nodes k with
    | some x => rw [ho] at h; simp at h
    | none =>
      rw [ho] at h
      rcases hr with hr | hr
      · exact findKey_eq_none.1 ho r hr
      · exact findKey_eq_none.1 h r hr
  · intro h
    have ho : findKey nl.open_nodes k = none :=
      findKey_eq_none.2 (fun r hr => h r (Or.inl hr))
    rw [ho]
    exact findKey_eq_none.2 (fun r hr => h r (Or.inr hr))

theorem find_some {nl : NodeList} {k : AyStarNode} {r : PathNode}
    (h : nl.Find k = some r) : nl.Mem r ∧ r.key = k := by
  unfold NodeList.Find NodeList.FindOpenNode NodeList.FindClosedNode at h
  cases ho : findKey nl.open_nodes k with
  | some x =>
    rw [ho] at h
    have e : x = r := by simpa using h
    subst e
    exact ⟨Or.inl (findKey_some ho).1, (findKey_some ho).2⟩
  | none =>
    rw [ho] at h
    exact ⟨Or.inr (findKey_some h).1, (findKey_some h).2⟩

theorem find_of_mem {nl : NodeList} (hu : nl.Unique) {r : PathNode} (hm : nl.Mem r) :
    nl.Find r.key = some r := by
  cases hf : nl.Find r.key with
  | none => exact absurd rfl (find_eq_none.1 hf r hm)
  | some x =>
    obtain ⟨hx, hk⟩ := find_some hf
    rw [hu x r hx hm hk]

/-- The list `Insert` leaves when it does not keep the old one: the records of
the key are dropped from both views and the new record is appended to open. -/
theorem insert_form (nl : NodeList) (k : AyStarNode) (g h : Nat) (p : Option AyStarNode) :
    (nl.Insert k g h p = nl ∧ ∃ r, nl.Find k = some r ∧ r.g ≤ g) ∨
    (nl.Insert k g h p =
        { open_nodes := removeKey nl.open_nodes k ++ [⟨k, p, g, h⟩],
          closed_nodes := removeKey nl.closed_nodes k } ∧
      ∀ r, nl.Find k = some r → g < r.g) := by
  unfold NodeList.Insert
  cases hf : nl.Find k with
  | none =>
    right
    have hab := find_eq_none.1 hf
    refine ⟨?_, fun r hr => by simp at hr⟩
    simp only []
    rw [removeKey_of_absent (fun r hr => hab r (Or.inl hr)),
      removeKey_of_absent (fun r hr => hab r (Or.inr hr))]
  | some r =>
    by_cases hle : r.g ≤ g
    · left
      exact ⟨by simp [hle], r, rfl, hle⟩
    · right
      refine ⟨by simp [hle], ?_⟩
      intro r' hr'
      have e : r = r' := by simpa using hr'
      subst e
      omega

theorem mem_insert {nl : NodeList} {k : AyStarNode} {g h : Nat} {p : Option AyStarNode}
    {x : PathNode} (hx : (nl.Insert k g h p).Mem x) :
    x = ⟨k, p, g, h⟩ ∨ (nl.Mem x ∧ (x.key = k → nl.Insert k g h p = nl)) := by
  rcases insert_form nl k g h p with ⟨e, _⟩ | ⟨e, _⟩
  · rw [e] at hx
    exact Or.inr ⟨hx, fun _ => e⟩
  · rw [e] at hx
    unfold NodeList.Mem at hx
    simp only [List.mem_append, List.mem_singleton] at hx
    rcases hx with (hx | hx) | hx
    · exact Or.inr ⟨Or.inl (mem_removeKey.1 hx).1, fun hk => absurd hk (mem_removeKey.1 hx).2⟩
    · exact Or.inl hx
    · exact Or.inr ⟨Or.inr (mem_removeKey.1 hx).1, fun hk => absurd hk (mem_removeKey.1 hx).2⟩

theorem insert_closed_sub {nl : NodeList} {k : AyStarNode} {g h : Nat}
    {p : Option AyStarNode} {x : PathNode}
    (hx : x ∈ (nl.Insert k g h p).closed_nodes) : x ∈ nl.closed_nodes := by
  rcases insert_form nl k g h p with ⟨e, _⟩ | ⟨e, _⟩
  · rw [e] at hx; exact hx
  · rw [e] at hx
    exact (mem_removeKey.1 hx).1

theorem insert_unique {nl : NodeList} (hu : nl.Unique) (k : AyStarNode) (g h : Nat)
    (p : Option AyStarNode) : (nl.Insert k g h p).Unique := by
  intro x y hx hy hk
  rcases mem_insert hx with ex | ⟨mx, nx⟩
  · rcases mem_insert hy with ey | ⟨my, ny⟩
    · rw [ex, ey]
    · have hyk : y.key = k := by rw [← hk, ex]
      rw [ny hyk] at hx
      exact hu x y hx my hk
  · rcases mem_insert hy with ey | ⟨my, ny⟩
    · have hxk : x.key = k := by rw [hk, ey]
      rw [nx hxk] at hy
      exact hu x y mx hy hk
    · exact hu x y mx my hk

theorem insert_covers_self (nl : NodeList) (k : AyStarNode) (g h : Nat)
    (p : Option AyStarNode) : (nl.Insert k g h p).Covers k g := by
  rcases insert_form nl k g h p with ⟨e, r, hr, hle⟩ | ⟨e, _⟩
  · rw [e]
    exact ⟨r, (find_some hr).1, (find_some hr).2, hle⟩
  · rw [e]
    exact ⟨⟨k, p, g, h⟩, Or.inl (by simp), rfl, le_refl _⟩

theorem insert_covers_mono {nl : NodeList} (hu : nl.Unique) (k : AyStarNode) (g h : Nat)
    (p : Option AyStarNode) {w : AyStarNode} {x : Nat} (hc : nl.Covers w x) :
    (nl.Insert k g h p).Covers w x := by
  obtain ⟨y, hy, hyk, hyg⟩ := hc
  rcases insert_form nl k g h p with ⟨e, _⟩ | ⟨e, hlt⟩
  · rw [e]; exact ⟨y, hy, hyk, hyg⟩
  · rw [e]
    by_cases hk : y.key = k
    · have hf := find_of_mem hu hy
      rw [hk] at hf
      have := hlt y hf
      exact ⟨⟨k, p, g, h⟩, Or.inl (by simp), hk ▸ hyk, by simp only []; omega⟩
    · rcases hy with hy | hy
      · exact ⟨y, Or.inl (List.mem_append_left _ (mem_removeKey.2 ⟨hy, hk⟩)), hyk, hyg⟩
      · exact ⟨y, Or.inr (mem_removeKey.2 ⟨hy, hk⟩), hyk, hyg⟩

/-! ## Iterations, batches and runs -/

theorem nthLoop_one (a : AyStar) (s : SearchState) : NthLoop a 1 s = some (Loop a s) := rfl

theorem nthLoop_succ_succ (a : AyStar) (j : Nat) (s : SearchState) :
    NthLoop a (j + 2) s =
      if (Loop a s).1 = AYSTAR_STILL_BUSY then NthLoop a (j + 1) (Loop a s).2 else none := rfl

theorem runLoops_one (a : AyStar) (s : SearchState) : RunLoops a 1 s = Loop a s := by
  unfold RunLoops
  split <;> rfl

theorem runLoops_succ_succ (a : AyStar) (n : Nat) (s : SearchState) :
    RunLoops a (n + 2) s =
      if (Loop a s).1 = AYSTAR_STILL_BUSY then RunLoops a (n + 1) (Loop a s).2
      else Loop a s := by
  conv => lhs; unfold RunLoops

theorem runToEnd_succ (a : AyStar) (fuel : Nat) (s : SearchState) :
    RunToEnd a (fuel + 1) s =
      if (Loop a s).1 = AYSTAR_STILL_BUSY then RunToEnd a fuel (Loop a s).2
      else some (Loop a s) := rfl

/-- A batch of at most `n` iterations returns what its last iteration returned. -/
theorem runLoops_is_nthLoop (a : AyStar) (n : Nat) :
    ∀ s, ∃ j, 1 ≤ j ∧ j ≤ n + 1 ∧ NthLoop a j s = some (RunLoops a (n + 1) s) := by
  induction n with
  | zero =>
    intro s
    exact ⟨1, le_refl _, le_refl _, by rw [runLoops_one, nthLoop_one]⟩
  | succ n ih =>
    intro s
    rw [runLoops_succ_succ]
    by_cases hb : (Loop a s).1 = AYSTAR_STILL_BUSY
    · obtain ⟨j, h1, h2, h3⟩ := ih (Loop a s).2
      refine ⟨j + 1, by omega, by omega, ?_⟩
      obtain ⟨i, rfl⟩ : ∃ i, j = i + 1 := ⟨j - 1, by omega⟩
      rw [nthLoop_succ_succ, if_pos hb, if_pos hb]
      exact h3
    · refine ⟨1, le_refl _, by omega, ?_⟩
      rw [if_neg hb, nthLoop_one]

theorem nthLoop_runLoops_done (a : AyStar) (n : Nat) :
    ∀ j s r, NthLoop a j s = some r → r.1 ≠ AYSTAR_STILL_BUSY → j ≤ n + 1 →
      RunLoops a (n + 1) s = r := by
  induction n with
  | zero =>
    intro j s r h hr hj
    rcases j with _ | j
    · simp [NthLoop] at h
    · have : j = 0 := by omega
      subst this
      rw [nthLoop_one] at h
      rw [runLoops_one]
      exact Option.some.inj h
  | succ n ih =>
    intro j s r h hr hj
    rcases j with _ | _ | j
    · simp [NthLoop] at h
    · rw [nthLoop_one] at h
      have e : Loop a s = r := Option.some.inj h
      rw [runLoops_succ_succ, if_neg (by rw [e]; exact hr)]
      exact e
    · rw [nthLoop_succ_succ] at h
      by_cases hb : (Loop a s).1 = AYSTAR_STILL_BUSY
      · rw [if_pos hb] at h
        rw [runLoops_succ_succ, if_pos hb]
        exact ih _ _ _ h hr (by omega)
      · rw [if_neg hb] at h
        simp at h

theorem nthLoop_runLoops_busy (a : AyStar) (n : Nat) :
    ∀ j s r, NthLoop a j s = some r → n + 1 < j →
      (RunLoops a (n + 1) s).1 = AYSTAR_STILL_BUSY ∧
        NthLoop a (j - (n + 1)) (RunLoops a (n + 1) s).2 = some r := by
  induction n with
  | zero =>
    intro j s r h hj
    obtain ⟨i, rfl⟩ : ∃ i, j = i + 2 := ⟨j - 2, by omega⟩
    rw [nthLoop_succ_succ] at h
    by_cases hb : (Loop a s).1 = AYSTAR_STILL_BUSY
    · rw [if_pos hb] at h
      rw [runLoops_one]
      exact ⟨hb, by simpa using h⟩
    · rw [if_neg hb] at h
      simp at h
  | succ n ih =>
    intro j s r h hj
    obtain ⟨i, rfl⟩ : ∃ i, j = i + 2 := ⟨j - 2, by omega⟩
    rw [nthLoop_succ_succ] at h
    by_cases hb : (Loop a s).1 = AYSTAR_STILL_BUSY
    · rw [if_pos hb] at h
      rw [runLoops_succ_succ, if_pos hb]
      have := ih _ _ _ h (by omega)
      have e : i + 2 - (n + 1 + 1) = i + 1 - (n + 1) := by omega
      rw [e]
      exact this
    · rw [if_neg hb] at h
      simp at h

theorem nthLoop_after_busy_batch (a : AyStar) (n : Nat) :
    ∀ s j r, (RunLoops a (n + 1) s).1 = AYSTAR_STILL_BUSY →
      NthLoop a (j + 1) (RunLoops a (n + 1) s).2 = some r →
      NthLoop a (n + 1 + (j + 1)) s = some r := by
  induction n with
  | zero =>
    intro s j r hb h
    rw [runLoops_one] at hb h
    have e : 0 + 1 + (j + 1) = j + 2 := by omega
    rw [e, nthLoop_succ_succ, if_pos hb]
    exact h
  | succ n ih =>
    intro s j r hb h
    rw [runLoops_succ_succ] at hb h
    by_cases hl : (Loop a s).1 = AYSTAR_STILL_BUSY
    · rw [if_pos hl] at hb h
      have e : n + 1 + 1 + (j + 1) = (n + 1 + j) + 2 := by omega
      rw [e, nthLoop_succ_succ, if_pos hl]
      have := ih _ _ _ hb h
      have e2 : n + 1 + j + 1 = n + 1 + (j + 1) := by omega
      rw [e2]
      exact this
    · rw [if_neg hl] at hb
      exact absurd hb hl

theorem runToEnd_nthLoop (a : AyStar) :
    ∀ fuel s r, RunToEnd a fuel s = some r →
      r.1 ≠ AYSTAR_STILL_BUSY ∧ ∃ j, 1 ≤ j ∧ j ≤ fuel ∧ NthLoop a j s = some r := by
  intro fuel
  induction fuel with
  | zero => intro s r h; simp [RunToEnd] at h
  | succ fuel ih =>
    intro s r h
    rw [runToEnd_succ] at h
    by_cases hb : (Loop a s).1 = AYSTAR_STILL_BUSY
    · rw [if_pos hb] at h
      obtain ⟨hr, j, h1, h2, h3⟩ := ih _ _ h
      refine ⟨hr, j + 1, by omega, by omega, ?_⟩
      obtain ⟨i, rfl⟩ : ∃ i, j = i + 1 := ⟨j - 1, by omega⟩
      rw [nthLoop_succ_succ, if_pos hb]
      exact h3
    · rw [if_neg hb] at h
      have e : Loop a s = r := Option.some.inj h
      exact ⟨by rw [← e]; exact hb, 1, le_refl _, by omega, by rw [nthLoop_one, e]⟩

theorem nthLoop_runToEnd (a : AyStar) :
    ∀ j s r fuel, NthLoop a j s = some r → r.1 ≠ AYSTAR_STILL_BUSY → j ≤ fuel →
      RunToEnd a fuel s = some r := by
  intro j
  induction j with
  | zero => intro s r fuel h; simp [NthLoop] at h
  | succ j ih =>
    intro s r fuel h hr hf
    obtain ⟨f, rfl⟩ : ∃ f, fuel = f + 1 := ⟨fuel - 1, by omega⟩
    rw [runToEnd_succ]
    rcases j with _ | j
    · rw [nthLoop_one] at h
      have e : Loop a s = r := Option.some.inj h
      rw [if_neg (by rw [e]; exact hr), e]
    · rw [nthLoop_succ_succ] at h
      by_cases hb : (Loop a s).1 = AYSTAR_STILL_BUSY
      · rw [if_pos hb] at h
        rw [if_pos hb]
        exact ih _ _ _ h hr (by omega)
      · rw [if_neg hb] at h
        simp at h

theorem nthLoop_unique (a : AyStar) :
    ∀ j j' s r r', NthLoop a j s = some r → NthLoop a j' s = some r' →
      r.1 ≠ AYSTAR_STILL_BUSY → r'.1 ≠ AYSTAR_STILL_BUSY → r = r' := by
  intro j j' s r r' h h' hr hr'
  have e1 := nthLoop_runToEnd a j s r (j + j') h hr (by omega)
  have e2 := nthLoop_runToEnd a j' s r' (j + j') h' hr' (by omega)
  rw [e1] at e2
  exact Option.some.inj e2

theorem loop_loops_per_tick (a : AyStar) (n : Nat) :
    Loop { a with loops_per_tick := n } = Loop a := rfl

theorem nthLoop_congr {a b : AyStar} (h : Loop a = Loop b) :
    ∀ j s, NthLoop a j s = NthLoop b j s := by
  intro j
  induction j with
  | zero => intro s; rfl
  | succ j ih =>
    intro s
    rcases j with _ | j
    · rw [nthLoop_one, nthLoop_one, h]
    · rw [nthLoop_succ_succ, nthLoop_succ_succ, h, ih]

theorem runToEnd_congr {a b : AyStar} (h : Loop a = Loop b) :
    ∀ fuel s, RunToEnd a fuel s = RunToEnd b fuel s := by
  intro fuel
  induction fuel with
  | zero => intro s; rfl
  | succ fuel ih => intro s; rw [runToEnd_succ, runToEnd_succ, h, ih]

theorem main_batch (a : AyStar) (n fuel : Nat) (s : SearchState)
    (h : a.loops_per_tick = n + 1) : Main a fuel s = some (RunLoops a (n + 1) s) := by
  unfold Main
  rw [h, if_neg (by omega)]

theorem mainUntilDone_succ (a : AyStar) (n fuel calls : Nat) (s : SearchState)
    (h : a.loops_per_tick = n + 1) :
    MainUntilDone a fuel (calls + 1) s =
      if (RunLoops a (n + 1) s).1 = AYSTAR_STILL_BUSY then
        MainUntilDone a fuel calls (RunLoops a (n + 1) s).2
      else some (RunLoops a (n + 1) s) := by
  conv => lhs; unfold MainUntilDone
  rw [main_batch a n fuel s h]

theorem mainUntilDone_nthLoop (a : AyStar) (n fuel : Nat) (h : a.loops_per_tick = n + 1) :
    ∀ calls s r, MainUntilDone a fuel calls s = some r →
      r.1 ≠ AYSTAR_STILL_BUSY ∧ ∃ j, 1 ≤ j ∧ NthLoop a j s = some r := by
  intro calls
  induction calls with
  | zero => intro s r hr; simp [MainUntilDone] at hr
  | succ calls ih =>
    intro s r hr
    rw [mainUntilDone_succ a n fuel calls s h] at hr
    by_cases hb : (RunLoops a (n + 1) s).1 = AYSTAR_STILL_BUSY
    · rw [if_pos hb] at hr
      obtain ⟨h1, j, hj, h2⟩ := ih _ _ hr
      obtain ⟨i, rfl⟩ : ∃ i, j = i + 1 := ⟨j - 1, by omega⟩
      exact ⟨h1, _, by omega, nthLoop_after_busy_batch a n s i r hb h2⟩
    · rw [if_neg hb] at hr
      have e : RunLoops a (n + 1) s = r := Option.some.inj hr
      obtain ⟨j, h1, _, h3⟩ := runLoops_is_nthLoop a n s
      exact ⟨by rw [← e]; exact hb, j, h1, by rw [h3, e]⟩

theorem nthLoop_mainUntilDone (a : AyStar) (n fuel : Nat) (h : a.loops_per_tick = n + 1) :
    ∀ j s r, NthLoop a j s = some r → r.1 ≠ AYSTAR_STILL_BUSY →
      ∃ calls, calls ≤ j ∧ MainUntilDone a fuel calls s = some r := by
  intro j
  induction j using Nat.strong_induction_on with
  | _ j ih =>
    intro s r hj hr
    by_cases hle : j ≤ n + 1
    · have e := nthLoop_runLoops_done a n j s r hj hr hle
      have hj1 : 1 ≤ j := by
        rcases j with _ | j
        · simp [NthLoop] at hj
        · omega
      refine ⟨1, hj1, ?_⟩
      rw [mainUntilDone_succ a n fuel 0 s h, e, if_neg hr]
    · obtain ⟨hb, hrest⟩ := nthLoop_runLoops_busy a n j s r hj (by omega)
      obtain ⟨calls, hc, hm⟩ := ih (j - (n + 1)) (by omega) _ _ hrest hr
      refine ⟨calls + 1, by omega, ?_⟩
      rw [mainUntilDone_succ a n fuel calls s h, if_pos hb]
      exact hm

/-- C13: a freshly constructed `AyStar`, whatever its other fields are set to,
has `max_search_nodes = AYSTAR_DEF_MAX_SEARCH_NODES`, which is 10000. -/
theorem default_max_search_nodes (cg : AyStarNode → PathNode → Option Nat)
    (ch : AyStarNode → Option PathNode → Nat) (gn : PathNode → List AyStarNode)
    (ec : PathNode → AystarStatus) (lpt : Nat) (mpc : Int) :
    ({ CalculateG := cg, CalculateH := ch, GetNeighbours := gn, EndNodeCheck := ec,
       loops_per_tick := lpt, max_path_cost := mpc } : AyStar).max_search_nodes =
        AYSTAR_DEF_MAX_SEARCH_NODES ∧
      AYSTAR_DEF_MAX_SEARCH_NODES = 10000 :=
  ⟨rfl, rfl⟩

/-- C14 (on the modelled list): `Insert` keeps the cheapest record per key.  With
no record of the key, one is created at the end of open; with a record (open or
closed) whose g is at most the new g, the list is unchanged; with a record whose
g is higher, the key ends up open with the new g, h and parent and is no longer
closed.  Records of other keys are not touched, and the list still holds one
record per key. -/
theorem insert_keeps_cheapest (nl : NodeList) (hu : nl.Unique) (key : AyStarNode)
    (g h : Nat) (parent : Option AyStarNode) :
    ((∀ r, nl.Mem r → r.key ≠ key) →
        nl.Insert key g h parent =
          { open_nodes := nl.open_nodes ++ [⟨key, parent, g, h⟩],
            closed_nodes := nl.closed_nodes } ∧
        (nl.Insert key g h parent).FindOpenNode key = some ⟨key, parent, g, h⟩) ∧
      (∀ r, nl.Mem r → r.key = key → r.g ≤ g → nl.Insert key g h parent = nl) ∧
      (∀ r, nl.Mem r → r.key = key → g < r.g →
        (nl.Insert key g h parent).FindOpenNode key = some ⟨key, parent, g, h⟩ ∧
        (nl.Insert key g h parent).FindClosedNode key = none) ∧
      (∀ k', k' ≠ key →
        (nl.Insert key g h parent).FindOpenNode k' = nl.FindOpenNode k' ∧
        (nl.Insert key g h parent).FindClosedNode k' = nl.FindClosedNode k') ∧
      (nl.Insert key g h parent).Unique := by
  have hnew : ∀ l : List PathNode,
      findKey (removeKey l key ++ [⟨key, parent, g, h⟩]) key = some ⟨key, parent, g, h⟩ :=
    fun l => findKey_append_new_self (removeKey l key) ⟨key, parent, g, h⟩
      (findKey_removeKey_self l key)
  refine ⟨?_, ?_, ?_, ?_, insert_unique hu key g h parent⟩
  · intro hab
    rcases insert_form nl key g h parent with ⟨_, r, hr, _⟩ | ⟨e, _⟩
    · exact absurd (find_some hr).2 (hab r (find_some hr).1)
    · have e2 := e
      rw [removeKey_of_absent (fun r hr => hab r (Or.inl hr)),
        removeKey_of_absent (fun r hr => hab r (Or.inr hr))] at e2
      refine ⟨e2, ?_⟩
      rw [e]
      exact hnew nl.open_nodes
  · intro r hr hk hle
    rcases insert_form nl key g h parent with ⟨e, _⟩ | ⟨_, hlt⟩
    · exact e
    · have hf := find_of_mem hu hr
      rw [hk] at hf
      have := hlt r hf
      omega
  · intro r hr hk hlt
    rcases insert_form nl key g h parent with ⟨_, r', hr', hle⟩ | ⟨e, _⟩
    · have hf := find_of_mem hu hr
      rw [hk, hr'] at hf
      have e : r' = r := Option.some.inj hf
      rw [e] at hle
      omega
    · rw [e]
      exact ⟨hnew nl.open_nodes, findKey_removeKey_self nl.closed_nodes key⟩
  · intro k' hk'
    rcases insert_form nl key g h parent with ⟨e, _⟩ | ⟨e, _⟩
    · rw [e]; exact ⟨rfl, rfl⟩
    · rw [e]
      unfold NodeList.FindOpenNode NodeList.FindClosedNode
      simp only []
      rw [findKey_append_new_ne _ _ hk', findKey_removeKey_ne _ hk', findKey_removeKey_ne _ hk']
      exact ⟨rfl, rfl⟩

/-- C17 (on the modelled engine): time-slicing does not change the result.  With
`loops_per_tick = n > 0`, every call of `Main` returns what the last of at most
`n` consecutive `Loop` iterations returned; and calling `Main` until it returns a
status other than `AYSTAR_STILL_BUSY` ends with a result `r` exactly when one
call of `Main` with `loops_per_tick = 0` ends with `r`: the same status, the same
state, and so the same found node, g and parent chain. -/
theorem time_slicing_same_result (a : AyStar) (n : Nat) (hn : 0 < n) (s : SearchState) :
    (∀ fuel s', ∃ j r, 1 ≤ j ∧ j ≤ n ∧ NthLoop a j s' = some r ∧
        Main { a with loops_per_tick := n } fuel s' = some r) ∧
      (∀ r, (∃ fuel, Main { a with loops_per_tick := 0 } fuel s = some r) ↔
        ∃ calls, MainUntilDone { a with loops_per_tick := n } 0 calls s = some r) ∧
      (∀ fuel calls r r', Main { a with loops_per_tick := 0 } fuel s = some r →
        MainUntilDone { a with loops_per_tick := n } 0 calls s = some r' →
        r.1 = r'.1 ∧ r.1 ≠ AYSTAR_STILL_BUSY ∧ r.2 = r'.2 ∧ FoundPath r.2 = FoundPath r'.2) := by
  obtain ⟨m, rfl⟩ : ∃ m, n = m + 1 := ⟨n - 1, by omega⟩
  have hl : ({ a with loops_per_tick := m + 1 } : AyStar).loops_per_tick = m + 1 := rfl
  have hc := nthLoop_congr (loop_loops_per_tick a (m + 1))
  have h0 : ∀ fuel s', Main { a with loops_per_tick := 0 } fuel s' = RunToEnd a fuel s' := by
    intro fuel s'
    unfold Main
    rw [if_pos rfl]
    exact runToEnd_congr (loop_loops_per_tick a 0) fuel s'
  have hfwd : ∀ fuel r, Main { a with loops_per_tick := 0 } fuel s = some r →
      r.1 ≠ AYSTAR_STILL_BUSY ∧ ∃ j, NthLoop a j s = some r := by
    intro fuel r hr
    rw [h0] at hr
    obtain ⟨h1, j, _, _, h3⟩ := runToEnd_nthLoop a fuel s r hr
    exact ⟨h1, j, h3⟩
  have hbwd : ∀ calls r, MainUntilDone { a with loops_per_tick := m + 1 } 0 calls s = some r →
      r.1 ≠ AYSTAR_STILL_BUSY ∧ ∃ j, NthLoop a j s = some r := by
    intro calls r hr
    obtain ⟨h1, j, _, h3⟩ := mainUntilDone_nthLoop _ m 0 hl calls s r hr
    rw [hc] at h3
    exact ⟨h1, j, h3⟩
  refine ⟨?_, ?_, ?_⟩
  · intro fuel s'
    obtain ⟨j, h1, h2, h3⟩ := runLoops_is_nthLoop { a with loops_per_tick := m + 1 } m s'
    rw [hc] at h3
    exact ⟨j, _, h1, h2, h3, main_batch _ m fuel s' hl⟩
  · intro r
    constructor
    · rintro ⟨fuel, hr⟩
      obtain ⟨h1, j, h3⟩ := hfwd fuel r hr
      rw [← hc] at h3
      obtain ⟨calls, _, hm⟩ := nthLoop_mainUntilDone _ m 0 hl j s r h3 h1
      exact ⟨calls, hm⟩
    · rintro ⟨calls, hr⟩
      obtain ⟨h1, j, h3⟩ := hbwd calls r hr
      exact ⟨j, by rw [h0]; exact nthLoop_runToEnd a j s r j h3 h1 (le_refl _)⟩
  · intro fuel calls r r' hr hr'
    obtain ⟨h1, j, h3⟩ := hfwd fuel r hr
    obtain ⟨h1', j', h3'⟩ := hbwd calls r' hr'
    have e := nthLoop_unique a j j' s r r' h3 h3' h1 h1'
    subst e
    exact ⟨rfl, h1, rfl, rfl⟩

/-! ## The node ceiling -/

theorem checkTile_max_search_nodes (a : AyStar) (m : Int) :
    CheckTile { a with max_search_nodes := m } = CheckTile a := rfl

theorem exceedsNodes_zero (a : AyStar) (e : Nat) :
    ExceedsNodes { a with max_search_nodes := 0 } e = false := by
  simp [ExceedsNodes]

theorem exceedsNodes_nat (a : AyStar) (N e : Nat) (hN : 0 < N) :
    ExceedsNodes { a with max_search_nodes := (N : Int) } e = decide (N < e) := by
  unfold ExceedsNodes
  simp only []
  by_cases h : N < e
  · simp [h]; omega
  · simp [h]

theorem loop_empty (a : AyStar) (s : SearchState) (hp : s.nodes.PopBest = none) :
    Loop a s = (AYSTAR_EMPTY_OPENLIST, s) := by
  unfold Loop
  rw [hp]

theorem loop_stale (a : AyStar) (s : SearchState) {cur : PathNode} {rest : NodeList}
    (hp : s.nodes.PopBest = some (cur, rest)) (hst : IsStale rest cur = true) :
    Loop a s = (AYSTAR_STILL_BUSY, { s with nodes := rest }) := by
  unfold Loop
  rw [hp]
  simp only [hst, if_true]

theorem loop_found (a : AyStar) (s : SearchState) {cur : PathNode} {rest : NodeList}
    (hp : s.nodes.PopBest = some (cur, rest)) (hst : IsStale rest cur = false)
    (hg : a.EndNodeCheck cur = AYSTAR_FOUND_END_NODE) :
    Loop a s = (AYSTAR_FOUND_END_NODE, { s with nodes := rest, found := some cur }) := by
  unfold Loop
  rw [hp]
  simp only [hst, hg, if_true]
  rfl

theorem loop_expand (a : AyStar) (s : SearchState) {cur : PathNode} {rest : NodeList}
    (hp : s.nodes.PopBest = some (cur, rest)) (hst : IsStale rest cur = false)
    (hg : a.EndNodeCheck cur ≠ AYSTAR_FOUND_END_NODE) :
    Loop a s =
      (if ExceedsNodes a (s.expanded + 1) then AYSTAR_LIMIT_REACHED else AYSTAR_STILL_BUSY,
        { nodes := (a.GetNeighbours cur).foldl (CheckTile a cur) (rest.Close cur),
          expanded := s.expanded + 1,
          found := s.found }) := by
  unfold Loop
  rw [hp]
  simp only [hst, hg, if_false]
  rfl

/-- One iteration under a node ceiling `N` and the same iteration without a
ceiling: they agree, unless the iteration expands the node that takes the counter
past `N`, where the ceiling turns `AYSTAR_STILL_BUSY` into `AYSTAR_LIMIT_REACHED`. -/
theorem loop_limit_cases (a : AyStar) (N : Nat) (hN : 0 < N) (s : SearchState)
    (hs : s.expanded ≤ N) :
    (Loop { a with max_search_nodes := (N : Int) } s = Loop { a with max_search_nodes := 0 } s ∧
        (Loop { a with max_search_nodes := 0 } s).2.expanded ≤ N) ∨
      ((Loop { a with max_search_nodes := 0 } s).1 = AYSTAR_STILL_BUSY ∧
        Loop { a with max_search_nodes := (N : Int) } s =
          (AYSTAR_LIMIT_REACHED, (Loop { a with max_search_nodes := 0 } s).2) ∧
        (Loop { a with max_search_nodes := 0 } s).2.expanded = N + 1) := by
  cases hp : s.nodes.PopBest with
  | none =>
    left
    rw [loop_empty _ s hp, loop_empty _ s hp]
    exact ⟨rfl, hs⟩
  | some cr =>
    obtain ⟨cur, rest⟩ := cr
    cases hst : IsStale rest cur with
    | true =>
      left
      rw [loop_stale _ s hp hst, loop_stale _ s hp hst]
      exact ⟨rfl, hs⟩
    | false =>
      by_cases hg : a.EndNodeCheck cur = AYSTAR_FOUND_END_NODE
      · left
        rw [loop_found { a with max_search_nodes := (N : Int) } s hp hst hg,
          loop_found { a with max_search_nodes := 0 } s hp hst hg]
        exact ⟨rfl, hs⟩
      · rw [loop_expand { a with max_search_nodes := (N : Int) } s hp hst hg,
          loop_expand { a with max_search_nodes := 0 } s hp hst hg,
          exceedsNodes_zero, exceedsNodes_nat a N _ hN]
        by_cases hlt : N < s.expanded + 1
        · right
          rw [decide_eq_true hlt]
          refine ⟨rfl, rfl, ?_⟩
          show s.expanded + 1 = N + 1
          omega
        · left
          rw [decide_eq_false hlt]
          refine ⟨rfl, ?_⟩
          show s.expanded + 1 ≤ N
          omega

theorem node_limit_aux (a : AyStar) (N : Nat) (hN : 0 < N) :
    ∀ k s0 r, s0.expanded ≤ N →
      NthLoop { a with max_search_nodes := 0 } k s0 = some r → N < r.2.expanded →
      ∃ j s', 1 ≤ j ∧ j ≤ k ∧
        NthLoop { a with max_search_nodes := (N : Int) } j s0 = some (AYSTAR_LIMIT_REACHED, s') ∧
        s'.expanded = N + 1 := by
  intro k
  induction k with
  | zero => intro s0 r _ h; simp [NthLoop] at h
  | succ k ih =>
    intro s0 r hs h hexp
    rcases k with _ | k
    · rw [nthLoop_one] at h
      have e : Loop { a with max_search_nodes := 0 } s0 = r := Option.some.inj h
      rcases loop_limit_cases a N hN s0 hs with ⟨_, hle⟩ | ⟨_, hl, hx⟩
      · rw [e] at hle; omega
      · exact ⟨1, _, le_refl _, le_refl _, by rw [nthLoop_one, hl], hx⟩
    · rw [nthLoop_succ_succ] at h
      by_cases hb : (Loop { a with max_search_nodes := 0 } s0).1 = AYSTAR_STILL_BUSY
      · rw [if_pos hb] at h
        rcases loop_limit_cases a N hN s0 hs with ⟨heq, hle⟩ | ⟨_, hl, hx⟩
        · obtain ⟨j, s', h1, h2, h3, h4⟩ := ih _ _ hle h hexp
          obtain ⟨i, rfl⟩ : ∃ i, j = i + 1 := ⟨j - 1, by omega⟩
          refine ⟨i + 2, s', by omega, by omega, ?_, h4⟩
          rw [nthLoop_succ_succ, heq, if_pos hb]
          exact h3
        · exact ⟨1, _, le_refl _, by omega, by rw [nthLoop_one, hl], hx⟩
      · rw [if_neg hb] at h
        simp at h

theorem limited_agrees (a : AyStar) (N : Nat) (hN : 0 < N) :
    ∀ j s r, s.expanded ≤ N →
      NthLoop { a with max_search_nodes := (N : Int) } j s = some r →
      r.1 ≠ AYSTAR_LIMIT_REACHED →
      NthLoop { a with max_search_nodes := 0 } j s = some r ∧ r.2.expanded ≤ N := by
  intro j
  induction j with
  | zero => intro s r _ h; simp [NthLoop] at h
  | succ j ih =>
    intro s r hs h hr
    rcases j with _ | j
    · rw [nthLoop_one] at h
      have e : Loop { a with max_search_nodes := (N : Int) } s = r := Option.some.inj h
      rcases loop_limit_cases a N hN s hs with ⟨heq, hle⟩ | ⟨_, hl, _⟩
      · rw [nthLoop_one, ← heq, e]
        rw [← heq, e] at hle
        exact ⟨rfl, hle⟩
      · rw [hl] at e
        rw [← e] at hr
        exact absurd rfl hr
    · rw [nthLoop_succ_succ] at h
      by_cases hb : (Loop { a with max_search_nodes := (N : Int) } s).1 = AYSTAR_STILL_BUSY
      · rw [if_pos hb] at h
        rcases loop_limit_cases a N hN s hs with ⟨heq, hle⟩ | ⟨_, hl, _⟩
        · rw [heq] at hb h
          obtain ⟨h1, h2⟩ := ih _ _ hle h hr
          rw [nthLoop_succ_succ, if_pos hb]
          exact ⟨h1, h2⟩
        · rw [hl] at hb
          cases hb
      · rw [if_neg hb] at h
        simp at h

/-- C15 (on the modelled engine): with a node ceiling `N > 0`, a search that
without the ceiling goes on to expand more than `N` nodes ends with
`AYSTAR_LIMIT_REACHED`, after `N + 1` expansions: the run to completion returns
that status and no other.  And a search in which no goal is reached within `N`
expansions never ends with `AYSTAR_FOUND_END_NODE`. -/
theorem node_limit_reached (a : AyStar) (N : Nat) (hN : 0 < N) (s0 : SearchState)
    (hs : s0.expanded = 0) :
    (∀ k, (∃ r, NthLoop { a with max_search_nodes := 0 } k s0 = some r ∧ N < r.2.expanded) →
      ∃ j s', 1 ≤ j ∧ j ≤ k ∧ s'.expanded = N + 1 ∧
        NthLoop { a with max_search_nodes := (N : Int) } j s0 =
          some (AYSTAR_LIMIT_REACHED, s') ∧
        (∀ fuel, j ≤ fuel →
          RunToEnd { a with max_search_nodes := (N : Int) } fuel s0 =
            some (AYSTAR_LIMIT_REACHED, s')) ∧
        (∀ fuel r', RunToEnd { a with max_search_nodes := (N : Int) } fuel s0 = some r' →
          r' = (AYSTAR_LIMIT_REACHED, s') ∧ r'.1 ≠ AYSTAR_FOUND_END_NODE)) ∧
      ((∀ k s', NthLoop { a with max_search_nodes := 0 } k s0 =
            some (AYSTAR_FOUND_END_NODE, s') → N < s'.expanded) →
        ∀ fuel r', RunToEnd { a with max_search_nodes := (N : Int) } fuel s0 = some r' →
          r'.1 ≠ AYSTAR_FOUND_END_NODE) := by
  constructor
  · rintro k ⟨r, hr, hexp⟩
    obtain ⟨j, s', h1, h2, h3, h4⟩ := node_limit_aux a N hN k s0 r (by omega) hr hexp
    have hne : (AYSTAR_LIMIT_REACHED, s').1 ≠ AYSTAR_STILL_BUSY := by
      intro h; cases h
    refine ⟨j, s', h1, h2, h4, h3, ?_, ?_⟩
    · intro fuel hf
      exact nthLoop_runToEnd _ j s0 _ fuel h3 hne hf
    · intro fuel r' hr'
      obtain ⟨hb, j', _, _, hj'⟩ := runToEnd_nthLoop _ fuel s0 r' hr'
      have e := nthLoop_unique _ j' j s0 r' _ hj' h3 hb hne
      subst e
      exact ⟨rfl, by intro h; cases h⟩
  · intro hgoal fuel r' hr' hfound
    obtain ⟨_, j, _, _, hj⟩ := runToEnd_nthLoop _ fuel s0 r' hr'
    have hnl : r'.1 ≠ AYSTAR_LIMIT_REACHED := by
      rw [hfound]; intro h; cases h
    obtain ⟨h0, hle⟩ := limited_agrees a N hN j s0 r' (by omega) hj hnl
    have e : r' = (AYSTAR_FOUND_END_NODE, r'.2) := by
      rw [← hfound]
    rw [e] at h0
    have := hgoal j r'.2 h0
    omega

/-! ## Candidates and expansion -/

theorem checkTile_cases (a : AyStar) (cur : PathNode) (nl : NodeList) (cand : AyStarNode) :
    (CheckTile a cur nl cand = nl ∧
        (a.CalculateG cand cur = none ∨
          ∃ c, a.CalculateG cand cur = some c ∧ ExceedsCost a (cur.g + c) = true)) ∨
      ∃ c, a.CalculateG cand cur = some c ∧ ExceedsCost a (cur.g + c) = false ∧
        CheckTile a cur nl cand =
          nl.Insert cand (cur.g + c) (a.CalculateH cand (some cur)) (some cur.key) := by
  unfold CheckTile
  cases hg : a.CalculateG cand cur with
  | none => exact Or.inl ⟨rfl, Or.inl rfl⟩
  | some c =>
    cases he : ExceedsCost a (cur.g + c) with
    | true => exact Or.inl ⟨by simp [he], Or.inr ⟨c, rfl, he⟩⟩
    | false => exact Or.inr ⟨c, rfl, he, by simp [he]⟩

theorem checkTile_unique {a : AyStar} {cur : PathNode} {nl : NodeList} (cand : AyStarNode)
    (hu : nl.Unique) : (CheckTile a cur nl cand).Unique := by
  rcases checkTile_cases a cur nl cand with ⟨e, _⟩ | ⟨c, _, _, e⟩
  · rw [e]; exact hu
  · rw [e]; exact insert_unique hu _ _ _ _

theorem checkTile_covers_mono {a : AyStar} {cur : PathNode} {nl : NodeList}
    (cand : AyStarNode) (hu : nl.Unique) {w : AyStarNode} {x : Nat} (hc : nl.Covers w x) :
    (CheckTile a cur nl cand).Covers w x := by
  rcases checkTile_cases a cur nl cand with ⟨e, _⟩ | ⟨c, _, _, e⟩
  · rw [e]; exact hc
  · rw [e]; exact insert_covers_mono hu _ _ _ _ hc

theorem checkTile_closed_sub {a : AyStar} {cur : PathNode} {nl : NodeList}
    {cand : AyStarNode} {x : PathNode}
    (hx : x ∈ (CheckTile a cur nl cand).closed_nodes) : x ∈ nl.closed_nodes := by
  rcases checkTile_cases a cur nl cand with ⟨e, _⟩ | ⟨c, _, _, e⟩
  · rw [e] at hx; exact hx
  · rw [e] at hx; exact insert_closed_sub hx

theorem checkTile_mem {a : AyStar} {cur : PathNode} {nl : NodeList}
    {cand : AyStarNode} {x : PathNode} (hx : (CheckTile a cur nl cand).Mem x) :
    nl.Mem x ∨ ∃ c, a.CalculateG cand cur = some c ∧ ExceedsCost a (cur.g + c) = false ∧
      x = ⟨cand, some cur.key, cur.g + c, a.CalculateH cand (some cur)⟩ := by
  rcases checkTile_cases a cur nl cand with ⟨e, _⟩ | ⟨c, hg, he, e⟩
  · rw [e] at hx; exact Or.inl hx
  · rw [e] at hx
    rcases mem_insert hx with h | ⟨h, _⟩
    · exact Or.inr ⟨c, hg, he, h⟩
    · exact Or.inl h

theorem checkTile_covers_edge (a : AyStar) (cur : PathNode) (nl : NodeList)
    (cand : AyStarNode) {d : Nat} (hg : a.CalculateG cand cur = some d) :
    ExceedsCost a (cur.g + d) = true ∨ (CheckTile a cur nl cand).Covers cand (cur.g + d) := by
  rcases checkTile_cases a cur nl cand with ⟨_, h | ⟨c, hc, he⟩⟩ | ⟨c, hc, _, e⟩
  · rw [hg] at h; simp at h
  · rw [hg] at hc
    have : d = c := Option.some.inj hc
    subst this
    exact Or.inl he
  · rw [hg] at hc
    have : d = c := Option.some.inj hc
    subst this
    rw [e]
    exact Or.inr (insert_covers_self _ _ _ _ _)

theorem fold_unique (a : AyStar) (cur : PathNode) (l : List AyStarNode) :
    ∀ nl : NodeList, nl.Unique → (l.foldl (CheckTile a cur) nl).Unique := by
  induction l with
  | nil => intro nl h; exact h
  | cons c cs ih => intro nl h; exact ih _ (checkTile_unique c h)

theorem fold_covers_mono (a : AyStar) (cur : PathNode) (l : List AyStarNode) :
    ∀ nl : NodeList, nl.Unique → ∀ w x, nl.Covers w x →
      (l.foldl (CheckTile a cur) nl).Covers w x := by
  induction l with
  | nil => intro nl _ w x h; exact h
  | cons c cs ih =>
    intro nl hu w x h
    exact ih _ (checkTile_unique c hu) w x (checkTile_covers_mono c hu h)

theorem fold_closed_sub (a : AyStar) (cur : PathNode) (l : List AyStarNode) :
    ∀ nl : NodeList, ∀ x, x ∈ (l.foldl (CheckTile a cur) nl).closed_nodes →
      x ∈ nl.closed_nodes := by
  induction l with
  | nil => intro nl x h; exact h
  | cons c cs ih => intro nl x h; exact checkTile_closed_sub (ih _ x h)

theorem fold_mem (a : AyStar) (cur : PathNode) (l : List AyStarNode) :
    ∀ nl : NodeList, ∀ x, (l.foldl (CheckTile a cur) nl).Mem x →
      nl.Mem x ∨ ∃ cand ∈ l, ∃ c, a.CalculateG cand cur = some c ∧
        ExceedsCost a (cur.g + c) = false ∧
        x = ⟨cand, some cur.key, cur.g + c, a.CalculateH cand (some cur)⟩ := by
  induction l with
  | nil => intro nl x h; exact Or.inl h
  | cons c cs ih =>
    intro nl x h
    rcases ih _ x h with h1 | ⟨cand, hc, rest⟩
    · rcases checkTile_mem h1 with h2 | h2
      · exact Or.inl h2
      · exact Or.inr ⟨c, List.mem_cons_self _ _, h2⟩
    · exact Or.inr ⟨cand, List.mem_cons_of_mem _ hc, rest⟩

theorem fold_covers_edge (a : AyStar) (cur : PathNode) (l : List AyStarNode) :
    ∀ nl : NodeList, nl.Unique → ∀ cand ∈ l, ∀ d, a.CalculateG cand cur = some d →
      ExceedsCost a (cur.g + d) = true ∨
        (l.foldl (CheckTile a cur) nl).Covers cand (cur.g + d) := by
  induction l with
  | nil => intro nl _ cand hc; exact absurd hc (List.not_mem_nil _)
  | cons c cs ih =>
    intro nl hu cand hc d hg
    rcases List.mem_cons.1 hc with e | e
    · subst e
      rcases checkTile_covers_edge a cur nl cand hg with h | h
      · exact Or.inl h
      · exact Or.inr (fold_covers_mono a cur cs _ (checkTile_unique cand hu) _ _ h)
    · exact ih _ (checkTile_unique c hu) cand e d hg

theorem rest_mem {nl rest : NodeList} {cur x : PathNode}
    (hp : nl.PopBest = some (cur, rest)) (hx : rest.Mem x) : nl.Mem x ∧ x.key ≠ cur.key ∨
      x ∈ nl.closed_nodes := by
  obtain ⟨_, _, ho, hc⟩ := popBest_some hp
  rcases hx with h | h
  · rw [ho] at h
    exact Or.inl ⟨Or.inl (mem_removeKey.1 h).1, (mem_removeKey.1 h).2⟩
  · rw [hc] at h
    exact Or.inr h

theorem rest_mem_sub {nl rest : NodeList} {cur x : PathNode}
    (hp : nl.PopBest = some (cur, rest)) (hx : rest.Mem x) : nl.Mem x := by
  rcases rest_mem hp hx with h | h
  · exact h.1
  · exact Or.inr h

theorem close_mem {nl rest : NodeList} {cur x : PathNode}
    (hp : nl.PopBest = some (cur, rest)) (hx : (rest.Close cur).Mem x) :
    x = cur ∨ (nl.Mem x ∧ x.key ≠ cur.key) := by
  obtain ⟨_, _, ho, hc⟩ := popBest_some hp
  unfold NodeList.Close NodeList.Mem at hx
  simp only [List.mem_append, List.mem_singleton] at hx
  rcases hx with h | h | h
  · rw [ho] at h
    exact Or.inr ⟨Or.inl (mem_removeKey.1 h).1, (mem_removeKey.1 h).2⟩
  · rw [hc] at h
    exact Or.inr ⟨Or.inr (mem_removeKey.1 h).1, (mem_removeKey.1 h).2⟩
  · exact Or.inl h

theorem close_closed_mem {nl rest : NodeList} {cur x : PathNode}
    (hp : nl.PopBest = some (cur, rest)) (hx : x ∈ (rest.Close cur).closed_nodes) :
    x = cur ∨ x ∈ nl.closed_nodes := by
  obtain ⟨_, _, _, hc⟩ := popBest_some hp
  unfold NodeList.Close at hx
  simp only [List.mem_append, List.mem_singleton] at hx
  rcases hx with h | h
  · rw [hc] at h
    exact Or.inr (mem_removeKey.1 h).1
  · exact Or.inl h

theorem mem_close_of_ne {nl rest : NodeList} {cur x : PathNode}
    (hp : nl.PopBest = some (cur, rest)) (hx : nl.Mem x) (hk : x.key ≠ cur.key) :
    (rest.Close cur).Mem x := by
  obtain ⟨_, _, ho, hc⟩ := popBest_some hp
  unfold NodeList.Close NodeList.Mem
  simp only [List.mem_append, List.mem_singleton]
  rcases hx with h | h
  · exact Or.inl (by rw [ho]; exact mem_removeKey.2 ⟨h, hk⟩)
  · exact Or.inr (Or.inl (by rw [hc]; exact mem_removeKey.2 ⟨h, hk⟩))

theorem cur_mem_close (rest : NodeList) (cur : PathNode) : (rest.Close cur).Mem cur := by
  unfold NodeList.Close NodeList.Mem
  simp

theorem close_unique {nl rest : NodeList} {cur : PathNode} (hu : nl.Unique)
    (hp : nl.PopBest = some (cur, rest)) : (rest.Close cur).Unique := by
  intro x y hx hy hk
  rcases close_mem hp hx with ex | ⟨mx, nx⟩
  · rcases close_mem hp hy with ey | ⟨_, ny⟩
    · rw [ex, ey]
    · exact absurd (by rw [← hk, ex]) ny
  · rcases close_mem hp hy with ey | ⟨my, _⟩
    · exact absurd (by rw [hk, ey]) nx
    · exact hu x y mx my hk

theorem close_covers {nl rest : NodeList} {cur : PathNode} (hu : nl.Unique)
    (hp : nl.PopBest = some (cur, rest)) {w : AyStarNode} {x : Nat} (hc : nl.Covers w x) :
    (rest.Close cur).Covers w x := by
  obtain ⟨y, hy, hyk, hyg⟩ := hc
  by_cases hk : y.key = cur.key
  · have e : y = cur := hu y cur hy (Or.inl (popBest_some hp).1) hk
    subst e
    exact ⟨y, cur_mem_close rest y, hyk, hyg⟩
  · exact ⟨y, mem_close_of_ne hp hy hk, hyk, hyg⟩

theorem stale_covers {nl rest : NodeList} {cur : PathNode} (hu : nl.Unique)
    (hp : nl.PopBest = some (cur, rest)) (hst : IsStale rest cur = true)
    {w : AyStarNode} {x : Nat} (hc : nl.Covers w x) : rest.Covers w x := by
  obtain ⟨y, hy, hyk, hyg⟩ := hc
  obtain ⟨hcur, _, ho, hcl⟩ := popBest_some hp
  by_cases hk : y.key = cur.key
  · have e : y = cur := hu y cur hy (Or.inl hcur) hk
    subst e
    unfold IsStale NodeList.FindClosedNode at hst
    cases hf : findKey rest.closed_nodes y.key with
    | none => rw [hf] at hst; simp at hst
    | some c =>
      rw [hf] at hst
      have hle : c.g ≤ y.g := by simpa using hst
      exact ⟨c, Or.inr (findKey_some hf).1, (findKey_some hf).2.trans hyk, by omega⟩
  · rcases hy with h | h
    · exact ⟨y, Or.inl (by rw [ho]; exact mem_removeKey.2 ⟨h, hk⟩), hyk, hyg⟩
    · exact ⟨y, Or.inr (by rw [hcl]; exact h), hyk, hyg⟩

/-! ## Records of a running search -/

theorem addStartNode_cases (a : AyStar) (s : SearchState) (u : AyStarNode) (g : Nat) :
    (ExceedsCost a g = true ∧ AddStartNode a s u g = s) ∨
      (ExceedsCost a g = false ∧
        AddStartNode a s u g =
          { s with nodes := s.nodes.Insert u g (a.CalculateH u none) none }) := by
  unfold AddStartNode
  cases he : ExceedsCost a g with
  | true => exact Or.inl ⟨rfl, by simp⟩
  | false => exact Or.inr ⟨rfl, by simp⟩

theorem exceedsCost_false_iff (a : AyStar) (g : Nat) :
    ExceedsCost a g = false ↔ a.max_path_cost = 0 ∨ (g : Int) ≤ a.max_path_cost := by
  unfold ExceedsCost
  by_cases h0 : a.max_path_cost = 0
  · simp [h0]
  · simp [h0]

theorem reach_snoc (G : Graph) {u v w : AyStarNode} {c d : Nat} (h : G.Reach u v c)
    (hw : w ∈ G.nbrs v) (hd : G.cost v w = some d) : G.Reach u w (c + d) := by
  induction h with
  | refl u =>
    have := Graph.Reach.step hw hd (Graph.Reach.refl w)
    simpa using this
  | step hn hc _ ih =>
    have := Graph.Reach.step hn hc (ih hw hd)
    rw [Nat.add_assoc]
    exact this

theorem search_goal (G : Graph) (lpt : Nat) (mpc msn : Int) (n : PathNode) :
    (G.search lpt mpc msn).EndNodeCheck n = AYSTAR_FOUND_END_NODE ↔ G.goal n.key = true := by
  unfold Graph.search
  simp only []
  cases G.goal n.key <;> simp

/-- The invariant of a search over a test graph is kept by every iteration that
returns `AYSTAR_STILL_BUSY`. -/
theorem inv_loop (G : Graph) (lpt : Nat) (mpc msn : Int) (starts : List (AyStarNode × Nat))
    (s : SearchState) (hI : G.Inv (G.search lpt mpc msn) starts s)
    (hb : (Loop (G.search lpt mpc msn) s).1 = AYSTAR_STILL_BUSY) :
    G.Inv (G.search lpt mpc msn) starts (Loop (G.search lpt mpc msn) s).2 := by
  obtain ⟨hU, hH, hR, hNG, hSC, hE⟩ := hI
  cases hp : s.nodes.PopBest with
  | none =>
    rw [loop_empty _ s hp] at hb
    cases hb
  | some cr =>
    obtain ⟨cur, rest⟩ := cr
    have hcur : s.nodes.Mem cur := Or.inl (popBest_some hp).1
    cases hst : IsStale rest cur with
    | true =>
      rw [loop_stale _ s hp hst]
      have hsub : ∀ x, rest.Mem x → s.nodes.Mem x := fun x hx => rest_mem_sub hp hx
      have hcl : rest.closed_nodes = s.nodes.closed_nodes := (popBest_some hp).2.2.2
      refine ⟨?_, ?_, ?_, ?_, ?_, ?_⟩
      · intro x y hx hy hk
        exact hU x y (hsub x hx) (hsub y hy) hk
      · intro x hx; exact hH x (hsub x hx)
      · intro x hx; exact hR x (hsub x hx)
      · intro x hx
        exact hNG x (by rw [← hcl]; exact hx)
      · intro p hp' he
        exact stale_covers hU hp hst (hSC p hp' he)
      · intro x hx w d hw hd
        rcases hE x (by rw [← hcl]; exact hx) w d hw hd with h | h
        · exact Or.inl h
        · exact Or.inr (stale_covers hU hp hst h)
    | false =>
      by_cases hg : (G.search lpt mpc msn).EndNodeCheck cur = AYSTAR_FOUND_END_NODE
      · rw [loop_found _ s hp hst hg] at hb
        cases hb
      · rw [loop_expand _ s hp hst hg]
        have hU1 : (rest.Close cur).Unique := close_unique hU hp
        have hmem : ∀ x, ((G.nbrs cur.key).foldl (CheckTile (G.search lpt mpc msn) cur)
            (rest.Close cur)).Mem x →
            s.nodes.Mem x ∨ ∃ cand ∈ G.nbrs cur.key, ∃ c, G.cost cur.key cand = some c ∧
              x = ⟨cand, some cur.key, cur.g + c, G.heur cand⟩ := by
          intro x hx
          rcases fold_mem _ cur _ _ x hx with h | ⟨cand, hc, c, h1, _, h3⟩
          · rcases close_mem hp h with e | ⟨m, _⟩
            · rw [e]; exact Or.inl hcur
            · exact Or.inl m
          · exact Or.inr ⟨cand, hc, c, h1, h3⟩
        have hclosed : ∀ x, x ∈ ((G.nbrs cur.key).foldl (CheckTile (G.search lpt mpc msn) cur)
            (rest.Close cur)).closed_nodes → x = cur ∨ x ∈ s.nodes.closed_nodes :=
          fun x hx => close_closed_mem hp (fold_closed_sub _ cur _ _ x hx)
        have hcov : ∀ w x, s.nodes.Covers w x →
            ((G.nbrs cur.key).foldl (CheckTile (G.search lpt mpc msn) cur)
              (rest.Close cur)).Covers w x :=
          fun w x h => fold_covers_mono _ cur _ _ hU1 w x (close_covers hU hp h)
        refine ⟨fold_unique _ cur _ _ hU1, ?_, ?_, ?_, ?_, ?_⟩
        · intro x hx
          rcases hmem x hx with h | ⟨cand, _, c, _, e⟩
          · exact hH x h
          · rw [e]
        · intro x hx
          rcases hmem x hx with h | ⟨cand, hc, c, hcost, e⟩
          · exact hR x h
          · obtain ⟨p, hp', c0, hreach, hgc⟩ := hR cur hcur
            refine ⟨p, hp', c0 + c, ?_, ?_⟩
            · rw [e]; exact reach_snoc G hreach hc hcost
            · rw [e]; simp only []; omega
        · intro x hx
          rcases hclosed x hx with e | h
          · rw [e]
            cases hgoal : G.goal cur.key with
            | false => rfl
            | true => exact absurd ((search_goal G lpt mpc msn cur).2 hgoal) hg
          · exact hNG x h
        · intro p hp' he
          exact hcov _ _ (hSC p hp' he)
        · intro x hx w d hw hd
          rcases hclosed x hx with e | h
          · have hw' : w ∈ G.nbrs cur.key := e ▸ hw
            have hd' : G.cost cur.key w = some d := e ▸ hd
            rw [e]
            exact fold_covers_edge _ cur _ _ hU1 w hw' d hd'
          · rcases hE x h w d hw hd with h' | h'
            · exact Or.inl h'
            · exact Or.inr (hcov _ _ h')

theorem inv_start_aux (G : Graph) (lpt : Nat) (mpc msn : Int)
    (starts l : List (AyStarNode × Nat)) (hl : ∀ p ∈ l, p ∈ starts) :
    ∀ s : SearchState,
      (s.nodes.Unique ∧ (∀ x, s.nodes.Mem x → x.h = G.heur x.key) ∧
        (∀ x, s.nodes.Mem x → ∃ p ∈ starts, ∃ c, G.Reach p.1 x.key c ∧ x.g = p.2 + c) ∧
        s.nodes.closed_nodes = []) →
      (fun t : SearchState =>
        (t.nodes.Unique ∧ (∀ x, t.nodes.Mem x → x.h = G.heur x.key) ∧
          (∀ x, t.nodes.Mem x → ∃ p ∈ starts, ∃ c, G.Reach p.1 x.key c ∧ x.g = p.2 + c) ∧
          t.nodes.closed_nodes = []) ∧
        (∀ p ∈ l, ExceedsCost (G.search lpt mpc msn) p.2 = false → t.nodes.Covers p.1 p.2) ∧
        ∀ w x, s.nodes.Covers w x → t.nodes.Covers w x)
      (l.foldl (fun s p => AddStartNode (G.search lpt mpc msn) s p.1 p.2) s) := by
  induction l with
  | nil =>
    intro s hs
    exact ⟨hs, fun p hp => absurd hp (List.not_mem_nil _), fun _ _ h => h⟩
  | cons q qs ih =>
    intro s hs
    obtain ⟨hU, hH, hR, hC⟩ := hs
    have hq : q ∈ starts := hl q (List.mem_cons_self _ _)
    have hfold : (q :: qs).foldl (fun s p => AddStartNode (G.search lpt mpc msn) s p.1 p.2) s =
        qs.foldl (fun s p => AddStartNode (G.search lpt mpc msn) s p.1 p.2)
          (AddStartNode (G.search lpt mpc msn) s q.1 q.2) := rfl
    rw [hfold]
    rcases addStartNode_cases (G.search lpt mpc msn) s q.1 q.2 with ⟨hex, e⟩ | ⟨hex, e⟩
    · rw [e]
      obtain ⟨h1, h2, h3⟩ := ih (fun p hp => hl p (List.mem_cons_of_mem _ hp)) s
        ⟨hU, hH, hR, hC⟩
      refine ⟨h1, ?_, h3⟩
      intro p hp he
      rcases List.mem_cons.1 hp with e' | e'
      · rw [e'] at he
        rw [he] at hex
        cases hex
      · exact h2 p e' he
    · have hnext : (AddStartNode (G.search lpt mpc msn) s q.1 q.2).nodes =
          s.nodes.Insert q.1 q.2 (G.heur q.1) none := by
        rw [e]; rfl
      have hs1 : (AddStartNode (G.search lpt mpc msn) s q.1 q.2).nodes.Unique ∧
          (∀ x, (AddStartNode (G.search lpt mpc msn) s q.1 q.2).nodes.Mem x →
            x.h = G.heur x.key) ∧
          (∀ x, (AddStartNode (G.search lpt mpc msn) s q.1 q.2).nodes.Mem x →
            ∃ p ∈ starts, ∃ c, G.Reach p.1 x.key c ∧ x.g = p.2 + c) ∧
          (AddStartNode (G.search lpt mpc msn) s q.1 q.2).nodes.closed_nodes = [] := by
        rw [hnext]
        refine ⟨insert_unique hU _ _ _ _, ?_, ?_, ?_⟩
        · intro x hx
          rcases mem_insert hx with e' | ⟨m, _⟩
          · rw [e']
          · exact hH x m
        · intro x hx
          rcases mem_insert hx with e' | ⟨m, _⟩
          · rw [e']
            exact ⟨q, hq, 0, Graph.Reach.refl _, rfl⟩
          · exact hR x m
        · rw [List.eq_nil_iff_forall_not_mem]
          intro x hx
          have := insert_closed_sub hx
          rw [hC] at this
          exact absurd this (List.not_mem_nil _)
      obtain ⟨h1, h2, h3⟩ := ih (fun p hp => hl p (List.mem_cons_of_mem _ hp)) _ hs1
      refine ⟨h1, ?_, ?_⟩
      · intro p hp he
        rcases List.mem_cons.1 hp with e' | e'
        · rw [e']
          apply h3
          rw [hnext]
          exact insert_covers_self _ _ _ _ _
        · exact h2 p e' he
      · intro w x hc
        apply h3
        rw [hnext]
        exact insert_covers_mono hU _ _ _ _ hc

theorem inv_start (G : Graph) (lpt : Nat) (mpc msn : Int) (starts : List (AyStarNode × Nat)) :
    G.Inv (G.search lpt mpc msn) starts (StartAll (G.search lpt mpc msn) starts) := by
  have h := inv_start_aux G lpt mpc msn starts starts (fun _ hp => hp) SearchState.init
    ⟨by intro x y hx; rcases hx with h | h <;> simp [SearchState.init] at h,
      by intro x hx; rcases hx with h | h <;> simp [SearchState.init] at h,
      by intro x hx; rcases hx with h | h <;> simp [SearchState.init] at h,
      rfl⟩
  obtain ⟨⟨hU, hH, hR, hC⟩, hS, _⟩ := h
  unfold StartAll
  refine ⟨hU, hH, hR, ?_, hS, ?_⟩
  · intro x hx
    rw [hC] at hx
    exact absurd hx (List.not_mem_nil _)
  · intro x hx
    rw [hC] at hx
    exact absurd hx (List.not_mem_nil _)

theorem nthLoop_last (a : AyStar) (P : SearchState → Prop)
    (hP : ∀ s, P s → (Loop a s).1 = AYSTAR_STILL_BUSY → P (Loop a s).2) :
    ∀ k s r, P s → NthLoop a k s = some r → ∃ s1, P s1 ∧ Loop a s1 = r := by
  intro k
  induction k with
  | zero => intro s r _ h; simp [NthLoop] at h
  | succ k ih =>
    intro s r hs h
    rcases k with _ | k
    · rw [nthLoop_one] at h
      exact ⟨s, hs, Option.some.inj h⟩
    · rw [nthLoop_succ_succ] at h
      by_cases hb : (Loop a s).1 = AYSTAR_STILL_BUSY
      · rw [if_pos hb] at h
        exact ih _ _ (hP s hs hb) h
      · rw [if_neg hb] at h
        simp at h

theorem loop_found_inv (a : AyStar) (s s' : SearchState)
    (h : Loop a s = (AYSTAR_FOUND_END_NODE, s')) :
    ∃ cur rest, s.nodes.PopBest = some (cur, rest) ∧
      a.EndNodeCheck cur = AYSTAR_FOUND_END_NODE ∧ s'.found = some cur := by
  cases hp : s.nodes.PopBest with
  | none =>
    rw [loop_empty a s hp] at h
    cases h
  | some cr =>
    obtain ⟨cur, rest⟩ := cr
    cases hst : IsStale rest cur with
    | true =>
      rw [loop_stale a s hp hst] at h
      cases h
    | false =>
      by_cases hg : a.EndNodeCheck cur = AYSTAR_FOUND_END_NODE
      · rw [loop_found a s hp hst hg] at h
        refine ⟨cur, rest, rfl, hg, ?_⟩
        have e := congrArg Prod.snd h
        simp only [] at e
        rw [← e]
      · rw [loop_expand a s hp hst hg] at h
        have e := congrArg Prod.fst h
        simp only [] at e
        split at e <;> cases e

theorem exceedsCost_mono (a : AyStar) {x y : Nat} (hxy : y ≤ x)
    (h : ExceedsCost a x = false) : ExceedsCost a y = false := by
  rw [exceedsCost_false_iff] at *
  rcases h with h | h
  · exact Or.inl h
  · exact Or.inr (by omega)

/-- On every path to a goal node that starts at the key of a record and fits
under the cost ceiling, some open record has a total `f` of at most the record's
g plus the cost of the path. -/
theorem open_on_path (G : Graph) (hadm : G.Admissible) (a : AyStar)
    (starts : List (AyStarNode × Nat)) (s : SearchState) (hI : G.Inv a starts s) :
    ∀ u v c, G.Reach u v c → G.goal v = true → ∀ r, s.nodes.Mem r → r.key = u →
      ExceedsCost a (r.g + c) = false → ∃ n ∈ s.nodes.open_nodes, n.f ≤ r.g + c := by
  obtain ⟨_, hH, _, hNG, _, hE⟩ := hI
  intro u v c hreach
  induction hreach with
  | refl u =>
    intro hgoal r hr hk _
    rcases hr with ho | hc
    · refine ⟨r, ho, ?_⟩
      have h1 := hH r (Or.inl ho)
      have h2 := hadm u u 0 (Graph.Reach.refl u) hgoal
      unfold PathNode.f
      rw [h1, hk]
      omega
    · have := hNG r hc
      rw [hk, hgoal] at this
      cases this
  | @step u w v d c hn hcost hrest ih =>
    intro hgoal r hr hk hfit
    rcases hr with ho | hc
    · refine ⟨r, ho, ?_⟩
      have h1 := hH r (Or.inl ho)
      have h2 := hadm u v (d + c) (Graph.Reach.step hn hcost hrest) hgoal
      unfold PathNode.f
      rw [h1, hk]
      omega
    · rcases hE r hc w d (by rw [hk]; exact hn) (by rw [hk]; exact hcost) with hx | hcov
      · have := exceedsCost_mono a (show r.g + d ≤ r.g + (d + c) by omega) hfit
        rw [this] at hx
        cases hx
      · obtain ⟨y, hy, hyk, hyg⟩ := hcov
        obtain ⟨n, hn', hf⟩ := ih hgoal y hy hyk
          (exceedsCost_mono a (show y.g + c ≤ r.g + (d + c) by omega) hfit)
        exact ⟨n, hn', by omega⟩

theorem corridor_tiles {u v : AyStarNode} {c : Nat} (h : corridor.Reach u v c) :
    v.tile = u.tile + c := by
  induction h with
  | refl u => rfl
  | @step u w v d c hn hcost _ ih =>
    have hd : d = 1 := by
      have : some 1 = some d := hcost
      exact (Option.some.inj this).symm
    have hw : w.tile = u.tile + 1 := by
      unfold corridor at hn
      simp only [] at hn
      by_cases hlt : u.tile < 3
      · rw [if_pos hlt] at hn
        have e : w = ⟨u.tile + 1, u.td⟩ := by simpa using hn
        rw [e]
      · rw [if_neg hlt] at hn
        exact absurd hn (List.not_mem_nil _)
    omega

theorem corridor_admissible : corridor.Admissible := by
  intro u v c h hgoal
  have h1 := corridor_tiles h
  have h2 : v.tile = 3 := by
    unfold corridor at hgoal
    simpa using hgoal
  show 3 - u.tile ≤ c
  omega

theorem sampleList_unique : sampleList.Unique := by
  intro x y hx hy _
  have ex : x = ⟨⟨1, 0⟩, none, 5, 0⟩ := by
    rcases hx with h | h
    · simp [sampleList] at h
    · simpa [sampleList] using h
  have ey : y = ⟨⟨1, 0⟩, none, 5, 0⟩ := by
    rcases hy with h | h
    · simp [sampleList] at h
    · simpa [sampleList] using h
  rw [ex, ey]

/-- C18 (on the modelled engine): on a test graph with an admissible heuristic,
when the search ends with `AYSTAR_FOUND_END_NODE` the node handed to
`FoundEndNode` passes the goal check, its g is the cost of a path from a start
node, and its g is at most the cost of every path from a start node to a node
that passes the goal check and fits under the cost ceiling; when the ceiling is
off, or the found g is within it, its g is the minimum over all such paths. -/
theorem found_cost_is_minimal (G : Graph) (hadm : G.Admissible) (lpt : Nat) (mpc msn : Int)
    (starts : List (AyStarNode × Nat)) (k : Nat) (s' : SearchState)
    (hrun : NthLoop (G.search lpt mpc msn) k (StartAll (G.search lpt mpc msn) starts) =
      some (AYSTAR_FOUND_END_NODE, s')) :
    ∃ n, s'.found = some n ∧ G.goal n.key = true ∧
      (∃ p ∈ starts, ∃ c, G.Reach p.1 n.key c ∧ n.g = p.2 + c) ∧
      (∀ p ∈ starts, ∀ v c, G.Reach p.1 v c → G.goal v = true →
        (mpc = 0 ∨ ((p.2 + c : Nat) : Int) ≤ mpc) → n.g ≤ p.2 + c) ∧
      ((mpc = 0 ∨ (n.g : Int) ≤ mpc) →
        ∀ p ∈ starts, ∀ v c, G.Reach p.1 v c → G.goal v = true → n.g ≤ p.2 + c) := by
  obtain ⟨s1, hI, hloop⟩ := nthLoop_last (G.search lpt mpc msn)
    (G.Inv (G.search lpt mpc msn) starts)
    (fun s hs hb => inv_loop G lpt mpc msn starts s hs hb) k _ _
    (inv_start G lpt mpc msn starts) hrun
  obtain ⟨cur, rest, hp, hg, hfound⟩ := loop_found_inv _ s1 s' hloop
  obtain ⟨hcur, hmin, _, _⟩ := popBest_some hp
  have hfit : ∀ p ∈ starts, ∀ v c, G.Reach p.1 v c → G.goal v = true →
      (mpc = 0 ∨ ((p.2 + c : Nat) : Int) ≤ mpc) → cur.g ≤ p.2 + c := by
    intro p hp' v c hreach hgoal hc
    have hex : ExceedsCost (G.search lpt mpc msn) (p.2 + c) = false :=
      (exceedsCost_false_iff _ _).2 hc
    obtain ⟨r0, hr0, hk0, hg0⟩ := hI.2.2.2.2.1 p hp'
      (exceedsCost_mono _ (show p.2 ≤ p.2 + c by omega) hex)
    obtain ⟨n, hn, hf⟩ := open_on_path G hadm _ starts s1 hI p.1 v c hreach hgoal r0 hr0 hk0
      (exceedsCost_mono _ (show r0.g + c ≤ p.2 + c by omega) hex)
    have h1 := hmin n hn
    unfold PathNode.f at h1 hf
    omega
  refine ⟨cur, hfound, (search_goal G lpt mpc msn cur).1 hg, hI.2.2.1 cur (Or.inl hcur),
    hfit, ?_⟩
  intro hc p hp' v c hreach hgoal
  by_cases hpc : mpc = 0 ∨ ((p.2 + c : Nat) : Int) ≤ mpc
  · exact hfit p hp' v c hreach hgoal hpc
  · rcases hc with h0 | hle
    · exact absurd (Or.inl h0) hpc
    · have : ¬ ((p.2 + c : Nat) : Int) ≤ mpc := fun h => hpc (Or.inr h)
      omega

theorem found_cost_is_minimal_witness :
    ∃ s', NthLoop (corridor.search 0 0 0) 4 (StartAll (corridor.search 0 0 0) [(⟨0, 0⟩, 0)]) =
        some (AYSTAR_FOUND_END_NODE, s') ∧
      ∃ n, s'.found = some n ∧ corridor.goal n.key = true ∧
        (∃ p ∈ [((⟨0, 0⟩ : AyStarNode), 0)], ∃ c, corridor.Reach p.1 n.key c ∧ n.g = p.2 + c) ∧
        (∀ p ∈ [((⟨0, 0⟩ : AyStarNode), 0)], ∀ v c, corridor.Reach p.1 v c →
          corridor.goal v = true →
          ((0 : Int) = 0 ∨ ((p.2 + c : Nat) : Int) ≤ 0) → n.g ≤ p.2 + c) ∧
        (((0 : Int) = 0 ∨ (n.g : Int) ≤ 0) →
          ∀ p ∈ [((⟨0, 0⟩ : AyStarNode), 0)], ∀ v c, corridor.Reach p.1 v c →
            corridor.goal v = true → n.g ≤ p.2 + c) :=
  ⟨_, rfl, found_cost_is_minimal corridor corridor_admissible 0 0 0 [(⟨0, 0⟩, 0)] 4 _ rfl⟩

theorem insert_keeps_cheapest_witness :
    ((∀ r, sampleList.Mem r → r.key ≠ ⟨1, 0⟩) →
        sampleList.Insert ⟨1, 0⟩ 3 2 (some ⟨0, 0⟩) =
          { open_nodes := sampleList.open_nodes ++ [⟨⟨1, 0⟩, some ⟨0, 0⟩, 3, 2⟩],
            closed_nodes := sampleList.closed_nodes } ∧
        (sampleList.Insert ⟨1, 0⟩ 3 2 (some ⟨0, 0⟩)).FindOpenNode ⟨1, 0⟩ =
          some ⟨⟨1, 0⟩, some ⟨0, 0⟩, 3, 2⟩) ∧
      (∀ r, sampleList.Mem r → r.key = ⟨1, 0⟩ → r.g ≤ 3 →
        sampleList.Insert ⟨1, 0⟩ 3 2 (some ⟨0, 0⟩) = sampleList) ∧
      (∀ r, sampleList.Mem r → r.key = ⟨1, 0⟩ → 3 < r.g →
        (sampleList.Insert ⟨1, 0⟩ 3 2 (some ⟨0, 0⟩)).FindOpenNode ⟨1, 0⟩ =
          some ⟨⟨1, 0⟩, some ⟨0, 0⟩, 3, 2⟩ ∧
        (sampleList.Insert ⟨1, 0⟩ 3 2 (some ⟨0, 0⟩)).FindClosedNode ⟨1, 0⟩ = none) ∧
      (∀ k', k' ≠ ⟨1, 0⟩ →
        (sampleList.Insert ⟨1, 0⟩ 3 2 (some ⟨0, 0⟩)).FindOpenNode k' =
          sampleList.FindOpenNode k' ∧
        (sampleList.Insert ⟨1, 0⟩ 3 2 (some ⟨0, 0⟩)).FindClosedNode k' =
          sampleList.FindClosedNode k') ∧
      (sampleList.Insert ⟨1, 0⟩ 3 2 (some ⟨0, 0⟩)).Unique :=
  insert_keeps_cheapest sampleList sampleList_unique ⟨1, 0⟩ 3 2 (some ⟨0, 0⟩)

theorem node_limit_reached_witness :
    ∃ j s', 1 ≤ j ∧ j ≤ 3 ∧ s'.expanded = 2 + 1 ∧
      NthLoop { corridor.search 0 0 0 with max_search_nodes := ((2 : Nat) : Int) } j
          (StartAll (corridor.search 0 0 0) [(⟨0, 0⟩, 0)]) =
        some (AYSTAR_LIMIT_REACHED, s') ∧
      (∀ fuel, j ≤ fuel →
        RunToEnd { corridor.search 0 0 0 with max_search_nodes := ((2 : Nat) : Int) } fuel
            (StartAll (corridor.search 0 0 0) [(⟨0, 0⟩, 0)]) =
          some (AYSTAR_LIMIT_REACHED, s')) ∧
      (∀ fuel r',
        RunToEnd { corridor.search 0 0 0 with max_search_nodes := ((2 : Nat) : Int) } fuel
            (StartAll (corridor.search 0 0 0) [(⟨0, 0⟩, 0)]) = some r' →
        r' = (AYSTAR_LIMIT_REACHED, s') ∧ r'.1 ≠ AYSTAR_FOUND_END_NODE) :=
  (node_limit_reached (corridor.search 0 0 0) 2 (by decide)
    (StartAll (corridor.search 0 0 0) [(⟨0, 0⟩, 0)]) rfl).1 3 ⟨_, rfl, by decide⟩

theorem time_slicing_same_result_witness :
    (∀ fuel s', ∃ j r, 1 ≤ j ∧ j ≤ 2 ∧ NthLoop (corridor.search 7 0 0) j s' = some r ∧
        Main { corridor.search 7 0 0 with loops_per_tick := 2 } fuel s' = some r) ∧
      (∀ r, (∃ fuel, Main { corridor.search 7 0 0 with loops_per_tick := 0 } fuel
            (StartAll (corridor.search 7 0 0) [(⟨0, 0⟩, 0)]) = some r) ↔
        ∃ calls, MainUntilDone { corridor.search 7 0 0 with loops_per_tick := 2 } 0 calls
            (StartAll (corridor.search 7 0 0) [(⟨0, 0⟩, 0)]) = some r) ∧
      (∀ fuel calls r r',
        Main { corridor.search 7 0 0 with loops_per_tick := 0 } fuel
            (StartAll (corridor.search 7 0 0) [(⟨0, 0⟩, 0)]) = some r →
        MainUntilDone { corridor.search 7 0 0 with loops_per_tick := 2 } 0 calls
            (StartAll (corridor.search 7 0 0) [(⟨0, 0⟩, 0)]) = some r' →
        r.1 = r'.1 ∧ r.1 ≠ AYSTAR_STILL_BUSY ∧ r.2 = r'.2 ∧ FoundPath r.2 = FoundPath r'.2) :=
  time_slicing_same_result (corridor.search 7 0 0) 2 (by decide)
    (StartAll (corridor.search 7 0 0) [(⟨0, 0⟩, 0)])

end Pathfinder

namespace CompanyBase

/-! ## Company indices and the rail total -/

theorem railTotal_fold (l : List Nat) :
    ∀ acc, (l.foldl (fun acc x => (acc + x) % 2 ^ 32) acc) % 2 ^ 32 =
      (acc + l.sum) % 2 ^ 32 := by
  induction l with
  | nil => intro acc; simp
  | cons x xs ih =>
    intro acc
    rw [List.foldl_cons, ih, List.sum_cons, Nat.mod_add_mod, Nat.add_assoc]

theorem railTotal_lt (l : List Nat) :
    ∀ acc, acc < 2 ^ 32 → l.foldl (fun acc x => (acc + x) % 2 ^ 32) acc < 2 ^ 32 := by
  induction l with
  | nil => intro acc h; exact h
  | cons x xs ih =>
    intro acc _
    rw [List.foldl_cons]
    exact ih _ (Nat.mod_lt _ (by decide))

theorem getRailTotal_mod (ci : CompanyInfrastructure) :
    GetRailTotal ci = ci.rail.sum % 2 ^ 32 := by
  have h1 := railTotal_fold ci.rail 0
  have h2 := railTotal_lt ci.rail 0 (by decide)
  unfold GetRailTotal
  rw [Nat.mod_eq_of_lt h2, Nat.zero_add] at h1
  exact h1

/-- C24: `IsValidAiID index` holds exactly when `GetIfValid index` is a company
with `is_ai` set, and `IsValidHumanID index` exactly when it is a company with
`is_ai` clear; the two are never both true, exactly one is true at a valid
index, both are false at an invalid one, and at a valid index
`IsHumanID index` is `IsValidHumanID index`. -/
theorem valid_ai_human_id (pool : CompanyPool) (index : Nat) (hcoh : pool.Coherent) :
    (IsValidAiID pool index = true ↔
        ∃ c, pool.GetIfValid index = some c ∧ c.is_ai = true) ∧
      (IsValidHumanID pool index = true ↔
        ∃ c, pool.GetIfValid index = some c ∧ c.is_ai = false) ∧
      ¬ (IsValidAiID pool index = true ∧ IsValidHumanID pool index = true) ∧
      (∀ c, pool.GetIfValid index = some c →
        IsValidAiID pool index = !IsValidHumanID pool index) ∧
      (pool.GetIfValid index = none →
        IsValidAiID pool index = false ∧ IsValidHumanID pool index = false) ∧
      (∀ c, pool.GetIfValid index = some c →
        IsHumanID pool index = some (IsValidHumanID pool index)) := by
  unfold IsValidAiID IsValidHumanID IsHumanID
  cases hv : pool.GetIfValid index with
  | none => simp
  | some c =>
    have hget := hcoh index c hv
    rw [hget]
    cases hc : c.is_ai <;> simp [hc]

theorem valid_ai_human_id_witness :
    (IsValidAiID samplePool 1 = true ↔
        ∃ c, samplePool.GetIfValid 1 = some c ∧ c.is_ai = true) ∧
      (IsValidHumanID samplePool 1 = true ↔
        ∃ c, samplePool.GetIfValid 1 = some c ∧ c.is_ai = false) ∧
      ¬ (IsValidAiID samplePool 1 = true ∧ IsValidHumanID samplePool 1 = true) ∧
      (∀ c, samplePool.GetIfValid 1 = some c →
        IsValidAiID samplePool 1 = !IsValidHumanID samplePool 1) ∧
      (samplePool.GetIfValid 1 = none →
        IsValidAiID samplePool 1 = false ∧ IsValidHumanID samplePool 1 = false) ∧
      (∀ c, samplePool.GetIfValid 1 = some c →
        IsHumanID samplePool 1 = some (IsValidHumanID samplePool 1)) :=
  valid_ai_human_id samplePool 1 (fun _ _ h => h)

/-- C25 as stated fails: the total is accumulated in 32 bits, so with the rail
counts `4294967295` and `1` the function returns 0 and not their sum. -/
theorem rail_total_wraps :
    ¬ ∀ ci : CompanyInfrastructure, ci.WellFormed → GetRailTotal ci = ci.rail.sum := by
  intro h
  have h0 := h ⟨[4294967295, 1]⟩ (by
    intro x hx
    simp only [List.mem_cons, List.mem_singleton, List.not_mem_nil, or_false] at hx
    rcases hx with e | e <;> rw [e] <;> decide)
  revert h0
  decide

/-- C25 (amended): `GetRailTotal` returns the sum of every entry of the rail
array modulo `2 ^ 32`; it is the total sum whenever that sum is below `2 ^ 32`. -/
theorem rail_total_is_sum (ci : CompanyInfrastructure) (hsum : ci.rail.sum < 2 ^ 32) :
    GetRailTotal ci = ci.rail.sum ∧
      ∀ ci' : CompanyInfrastructure,
        GetRailTotal ci' = ci'.rail.sum % 2 ^ 32 ∧ GetRailTotal ci' < 2 ^ 32 := by
  refine ⟨?_, ?_⟩
  · rw [getRailTotal_mod, Nat.mod_eq_of_lt hsum]
  · intro ci'
    refine ⟨getRailTotal_mod ci', ?_⟩
    rw [getRailTotal_mod]
    exact Nat.mod_lt _ (by decide)

theorem rail_total_is_sum_witness :
    GetRailTotal ⟨[10, 20, 12]⟩ = ([10, 20, 12] : List Nat).sum ∧
      ∀ ci' : CompanyInfrastructure,
        GetRailTotal ci' = ci'.rail.sum % 2 ^ 32 ∧ GetRailTotal ci' < 2 ^ 32 :=
  rail_total_is_sum ⟨[10, 20, 12]⟩ (by decide)

end CompanyBase
